import Mathlib

/-!
Verification of the collaborative-filtering trainer and evaluator of
`src/models/hybrid_trainer.py` (Buy-From-Egypt recommendation system).

The Python code is shallowly embedded over exact rationals:

* dense numpy / torch matrices become `List (List ℚ)` (row-major);
* float `inf` used by the early-stopping bookkeeping becomes `WithTop ℚ`,
  and the `-inf` sentinel written into score rows becomes `WithBot ℚ`;
* a float division whose divisor can be zero (NaN in IEEE arithmetic)
  is embedded as an `Option ℚ` returning `none` on a zero divisor;
* code that can raise (`np.dot` on mismatched shapes,
  `sklearn.mean_squared_error` on empty arrays) returns `Except`;
* `np.random.choice` sampling and the Adam optimizer step are abstracted
  as function parameters (their outputs are data, their distribution and
  float dynamics are outside the embedding);
* `np.argsort` is embedded as a deterministic sort of the index list
  (descending by value, ties by ascending index); numpy's tie order is
  an unspecified permutation of equal keys, of which this is one.
-/

/-! ## Basic matrix helpers -/

/-- Cell access `M[u][i]` with numpy-style row-major layout; out-of-range
reads default to `0` (only used under in-range hypotheses). -/
def getC (M : List (List ℚ)) (u i : ℕ) : ℚ := (M.getD u []).getD i 0

/-- Number of rows (`shape[0]`). -/
def nRows (M : List (List ℚ)) : ℕ := M.length

/-- Number of columns (`shape[1]` of a rectangular array, read off the
first row as numpy does when the array is rectangular). -/
def nColsM (M : List (List ℚ)) : ℕ := (M.headD []).length

/-! ## C1: the per-epoch data loss of the two trainer variants

`train_collaborative_filtering` (quick variant, lines 210-217):

    mask = (user_post_tensor > 0).float()
    if torch.sum(mask) > 0:
        loss = torch.sum(mask * (T - P) ** 2) / torch.sum(mask)
    else:
        loss = torch.sum((T - P) ** 2) / (n_users * n_posts)

`train_hybrid_recommendation_model` (full variant, lines 912-918):

    mask = (user_item_tensor > 0).float()
    mse_loss = torch.sum(mask * (T - P) ** 2) / torch.sum(mask)

The full variant has no guard on `torch.sum(mask)`.
-/

/-- Sum of `f t p` over the cell pairs of two equally-shaped matrices
(`torch` broadcasts elementwise; `zip` realizes the pairing). -/
def cellSum2 (f : ℚ → ℚ → ℚ) (M P : List (List ℚ)) : ℚ :=
  ((M.zip P).map (fun rp => ((rp.1.zip rp.2).map (fun tp => f tp.1 tp.2)).sum)).sum

/-- `torch.sum(mask * (T - P) ** 2)`: squared error summed over the
strictly positive cells of `M`. -/
def sqDiffMaskedSum (M P : List (List ℚ)) : ℚ :=
  cellSum2 (fun t p => if 0 < t then (t - p) ^ 2 else 0) M P

/-- `torch.sum((T - P) ** 2)`: squared error summed over all cells. -/
def sqDiffTotalSum (M P : List (List ℚ)) : ℚ :=
  cellSum2 (fun t p => (t - p) ^ 2) M P

/-- `torch.sum(mask)`: the number of strictly positive cells of `M`. -/
def maskCount (M : List (List ℚ)) : ℕ :=
  (M.map (fun row => (row.filter (fun v => decide (0 < v))).length)).sum

/-- Float division by a cell count: IEEE division by zero of the zero
numerator arising here yields NaN, embedded as `none`. -/
def floatDiv (a : ℚ) (n : ℕ) : Option ℚ := if n = 0 then none else some (a / n)

/-- Per-epoch data loss of the quick variant (lines 210-217), with the
all-cells fallback when no cell is strictly positive. -/
def dataLossQuick (M P : List (List ℚ)) : ℚ :=
  if 0 < maskCount M then sqDiffMaskedSum M P / maskCount M
  else sqDiffTotalSum M P / (nRows M * nColsM M)

/-- Per-epoch data loss of the full variant (line 917): the masked mean
with no fallback, so the divisor is the positive-cell count. -/
def dataLossFullMSE (M P : List (List ℚ)) : Option ℚ :=
  floatDiv (sqDiffMaskedSum M P) (maskCount M)

/-- The strictly positive cells of `M` as row-major index pairs. -/
def posCells (M : List (List ℚ)) : List (ℕ × ℕ) :=
  (List.range M.length).flatMap
    (fun u => (((List.range ((M.getD u []).length)).filter
      (fun i => decide (0 < (M.getD u []).getD i 0))).map (fun i => (u, i))))

/-! Helper lemmas relating zip-based cell sums to index-based sums. -/

theorem sum_map_rows_eq_range {β : Type} [AddCommMonoid β] (g : List ℚ → β) :
    ∀ M : List (List ℚ),
      (M.map g).sum = ((List.range M.length).map (fun u => g (M.getD u []))).sum := by
  intro M
  induction M with
  | nil => simp
  | cons r rs ih =>
    simp [List.range_succ_eq_map, List.map_map, Function.comp_def, ih]

theorem rowSum_zip_eq_range (f : ℚ → ℚ → ℚ) :
    ∀ (a b : List ℚ), b.length = a.length →
      ((a.zip b).map (fun tp => f tp.1 tp.2)).sum =
        ((List.range a.length).map (fun i => f (a.getD i 0) (b.getD i 0))).sum := by
  intro a
  induction a with
  | nil => intro b _; simp
  | cons x xs ih =>
    intro b hb
    cases b with
    | nil => simp at hb
    | cons y ys =>
      simp only [List.length_cons, Nat.succ.injEq] at hb
      have := ih ys hb
      simp [List.range_succ_eq_map, List.zip_cons_cons, this, List.map_map,
        Function.comp_def]

theorem sum_ite_filter (Q : ℕ → Prop) [DecidablePred Q] (g : ℕ → ℚ) :
    ∀ (l : List ℕ),
      (l.map (fun i => if Q i then g i else 0)).sum =
        (((l.filter (fun i => decide (Q i))).map g).sum) := by
  intro l
  induction l with
  | nil => simp
  | cons x xs ih =>
    by_cases hx : Q x <;> simp [List.filter_cons, hx, ih]

theorem sum_map_flatMap {β : Type} [AddCommMonoid β] (g : ℕ × ℕ → β)
    (f : ℕ → List (ℕ × ℕ)) :
    ∀ l : List ℕ,
      ((l.flatMap f).map g).sum = (l.map (fun u => ((f u).map g).sum)).sum := by
  intro l
  induction l with
  | nil => simp
  | cons x xs ih => simp [List.flatMap_cons, ih]

theorem cellSum2_eq_rangeSum (f : ℚ → ℚ → ℚ) :
    ∀ (M P : List (List ℚ)), P.length = M.length →
      (∀ u < M.length, (P.getD u []).length = (M.getD u []).length) →
      cellSum2 f M P =
        ((List.range M.length).map (fun u =>
          ((List.range ((M.getD u []).length)).map
            (fun i => f (getC M u i) (getC P u i))).sum)).sum := by
  intro M
  unfold cellSum2
  induction M with
  | nil =>
    intro P hr _
    cases P with
    | nil => simp
    | cons q qs => simp at hr
  | cons r rs ih =>
    intro P hr hc
    cases P with
    | nil => simp at hr
    | cons q qs =>
      simp only [List.length_cons, Nat.succ.injEq] at hr
      have h0 := hc 0 (by simp)
      simp only [List.getD_cons_zero] at h0
      have hrow := rowSum_zip_eq_range f r q h0
      have htail := ih qs hr (by
        intro u hu
        have := hc (u + 1) (by simpa using Nat.succ_lt_succ hu)
        simpa using this)
      simp only [List.zip_cons_cons, List.map_cons, List.sum_cons, hrow,
        List.length_cons, List.range_succ_eq_map, List.map_map,
        Function.comp_def, getC, List.getD_cons_zero, List.getD_cons_succ,
        htail]

theorem maskCount_eq_posCells_length (M : List (List ℚ)) :
    maskCount M = (posCells M).length := by
  have hlen : ∀ row : List ℚ,
      (row.filter (fun v => decide (0 < v))).length =
        ((List.range row.length).filter
          (fun i => decide (0 < row.getD i 0))).length := by
    intro row
    induction row with
    | nil => simp
    | cons x xs ihx =>
      by_cases hx : 0 < x <;>
        simp [List.filter_cons, hx, List.range_succ_eq_map, List.filter_map,
          ihx, Function.comp_def]
  unfold maskCount posCells
  rw [List.length_flatMap]
  calc (M.map (fun row => (row.filter (fun v => decide (0 < v))).length)).sum
      = (M.map (fun row => ((List.range row.length).filter
          (fun i => decide (0 < row.getD i 0))).length)).sum := by
        congr 1; exact List.map_congr_left (fun row _ => hlen row)
    _ = ((List.range M.length).map (fun u =>
          ((List.range ((M.getD u []).length)).filter
            (fun i => decide (0 < (M.getD u []).getD i 0))).length)).sum := by
        exact sum_map_rows_eq_range
          (fun row => ((List.range row.length).filter
            (fun i => decide (0 < row.getD i 0))).length) M
    _ = _ := by
        congr 1
        apply List.map_congr_left
        intro u _
        simp [Function.comp_def]

/-- Claim C1, counterexample: in the full trainer variant
(`train_hybrid_recommendation_model`, line 917) the data loss divides by
`torch.sum(mask)` with no guard; on an all-zero interaction matrix the
positive-cell count is zero and the division is a division by a zero cell
count (NaN), so the loss is not well-defined for every input matrix as the
claim states. -/
theorem c1_counterexample :
    dataLossFullMSE [[0, 0], [0, 0]] [[1, 2], [3, 4]] = none ∧
      maskCount [[0, 0], [0, 0]] = 0 := by
  constructor <;>
    norm_num [dataLossFullMSE, floatDiv, maskCount, List.filter]

/-- Claim C1, amended: in every epoch, the quick variant's data loss is the
mean of squared errors over exactly the strictly positive cells when at
least one such cell exists, and the mean over all cells otherwise (so it is
always well-defined); the full variant's data loss is the same masked mean
when a positive cell exists, but is a division by the zero cell count
(`none`) on a matrix with no positive cell — the fallback exists only in
the quick variant. -/
theorem c1_masked_loss_amended (M P : List (List ℚ))
    (hr : P.length = M.length)
    (hc : ∀ u < M.length, (P.getD u []).length = (M.getD u []).length) :
    maskCount M = (posCells M).length ∧
    (0 < maskCount M →
      dataLossQuick M P =
        (((posCells M).map (fun c => (getC M c.1 c.2 - getC P c.1 c.2) ^ 2)).sum) /
          (posCells M).length ∧
      dataLossFullMSE M P =
        some ((((posCells M).map
            (fun c => (getC M c.1 c.2 - getC P c.1 c.2) ^ 2)).sum) /
          (posCells M).length)) ∧
    (maskCount M = 0 →
      dataLossQuick M P = sqDiffTotalSum M P / (nRows M * nColsM M) ∧
      dataLossFullMSE M P = none) := by
  have hcount := maskCount_eq_posCells_length M
  have hmasked : sqDiffMaskedSum M P =
      ((posCells M).map (fun c => (getC M c.1 c.2 - getC P c.1 c.2) ^ 2)).sum := by
    unfold sqDiffMaskedSum
    rw [cellSum2_eq_rangeSum _ M P hr hc]
    unfold posCells
    rw [sum_map_flatMap]
    congr 1
    apply List.map_congr_left
    intro u _
    rw [List.map_map]
    have := sum_ite_filter (fun i => 0 < (M.getD u []).getD i 0)
      (fun i => (getC M u i - getC P u i) ^ 2) (List.range ((M.getD u []).length))
    simp only [getC] at this ⊢
    rw [this]
    rfl
  refine ⟨hcount, ?_, ?_⟩
  · intro hpos
    rw [← hmasked, ← hcount]
    constructor
    · unfold dataLossQuick
      rw [if_pos hpos]
    · unfold dataLossFullMSE floatDiv
      rw [if_neg (by omega)]
  · intro hzero
    constructor
    · unfold dataLossQuick
      rw [if_neg (by omega)]
    · unfold dataLossFullMSE floatDiv
      rw [if_pos hzero]

/-- Witness for `c1_masked_loss_amended` at a concrete matrix with one
positive cell. -/
theorem c1_masked_loss_amended_witness :
    maskCount [[1, 0]] = (posCells [[1, 0]]).length ∧
    (0 < maskCount [[1, 0]] →
      dataLossQuick [[1, 0]] [[3, 5]] =
        (((posCells [[1, 0]]).map
          (fun c => (getC [[1, 0]] c.1 c.2 - getC [[3, 5]] c.1 c.2) ^ 2)).sum) /
          (posCells [[1, 0]]).length ∧
      dataLossFullMSE [[1, 0]] [[3, 5]] =
        some ((((posCells [[1, 0]]).map
            (fun c => (getC [[1, 0]] c.1 c.2 - getC [[3, 5]] c.1 c.2) ^ 2)).sum) /
          (posCells [[1, 0]]).length)) ∧
    (maskCount [[1, 0]] = 0 →
      dataLossQuick [[1, 0]] [[3, 5]] =
        sqDiffTotalSum [[1, 0]] [[3, 5]] / (nRows [[1, 0]] * nColsM [[1, 0]]) ∧
      dataLossFullMSE [[1, 0]] [[3, 5]] = none) :=
  c1_masked_loss_amended [[1, 0]] [[3, 5]] (by norm_num)
    (by
      intro u hu
      obtain rfl : u = 0 := Nat.lt_one_iff.mp hu
      norm_num)

/-! ## C2: holdout construction of `evaluate_collaborative_filtering`

Lines 639-646:

    interacted_items = np.where(user_item_matrix[u, :] > 0)[0]
    if len(interacted_items) > 5:
        n_test = max(1, int(test_size * len(interacted_items)))
        test_indices = np.random.choice(interacted_items, n_test, replace=False)
        test_mask[u, test_indices] = True

`int(...)` truncates its nonnegative float argument toward zero, i.e.
takes the floor. `np.random.choice` is abstracted as a `sample` function
parameter, constrained by `SampleOk`.
-/

/-- `np.where(row > 0)[0]`: ascending indices of strictly positive entries. -/
def interactedIdx (row : List ℚ) : List ℕ :=
  (List.range row.length).filter (fun i => decide (0 < row.getD i 0))

/-- Number of observed (strictly positive) interactions of a user row. -/
def observedCount (row : List ℚ) : ℕ := (interactedIdx row).length

/-- `max(1, int(test_size * observed_count))`: the held-out cell count the
code requests; `int()` on the nonnegative product is the floor. -/
def nTest (ts : ℚ) (c : ℕ) : ℕ := max 1 (⌊ts * c⌋).toNat

/-- The formula the claim states: `max(1, round(test_fraction * observed))`. -/
def specNTest (ts : ℚ) (c : ℕ) : ℕ := max 1 (round (ts * c)).toNat

/-- Sampling contract of `np.random.choice(pool, n, replace=False)` for
`n ≤ len(pool)`: `n` pool positions drawn without replacement, i.e. the
result is a subpermutation of the pool. The uniform distribution itself is
outside the embedding. -/
def SampleOk (sample : List ℕ → ℕ → List ℕ) : Prop :=
  ∀ l n, n ≤ l.length → (sample l n).length = n ∧ List.Subperm (sample l n) l

theorem subperm_nodup {l₁ l₂ : List ℕ} (h : List.Subperm l₁ l₂)
    (h₂ : l₂.Nodup) : l₁.Nodup := by
  obtain ⟨l, hp, hs⟩ := h
  exact hp.nodup (List.Nodup.sublist hs h₂)

/-- Per-row holdout of lines 641-646: sample `nTest` interacted columns
when the user has more than 5 observed interactions, none otherwise. -/
def selectTest (sample : List ℕ → ℕ → List ℕ) (ts : ℚ) (row : List ℚ) :
    List ℕ :=
  if 5 < (interactedIdx row).length then
    sample (interactedIdx row) (nTest ts (interactedIdx row).length)
  else []

theorem nTest_le_observed (ts : ℚ) (c : ℕ) (h0 : 0 ≤ ts) (h1 : ts ≤ 1)
    (hc : 5 < c) : nTest ts c ≤ c := by
  unfold nTest
  have hle : ts * (c : ℚ) ≤ (c : ℚ) := by
    calc ts * (c : ℚ) ≤ 1 * (c : ℚ) := by
          apply mul_le_mul_of_nonneg_right h1 (by positivity)
      _ = (c : ℚ) := one_mul _
  have hfloor : ⌊ts * (c : ℚ)⌋ ≤ (c : ℤ) := by
    calc ⌊ts * (c : ℚ)⌋ ≤ ⌊((c : ℤ) : ℚ)⌋ := by
          apply Int.floor_le_floor
          push_cast
          exact hle
      _ = (c : ℤ) := Int.floor_intCast c
  have htn : (⌊ts * (c : ℚ)⌋).toNat ≤ c := by
    rw [Int.toNat_le]
    exact_mod_cast hfloor
  omega

/-- Claim C2, counterexample: for a user row with 8 positive cells and
`test_fraction = 1/5`, the code selects `max(1, int(0.2 * 8)) = 1` test
cell, while the claimed formula `max(1, round(0.2 * 8)) = 2` gives two:
the code truncates, it does not round. -/
theorem c2_counterexample :
    (selectTest (fun l n => l.take n) (1 / 5)
        [1, 1, 1, 1, 1, 1, 1, 1]).length = 1 ∧
      specNTest (1 / 5) 8 = 2 := by
  have hidx : interactedIdx [1, 1, 1, 1, 1, 1, 1, 1] = [0, 1, 2, 3, 4, 5, 6, 7] := by
    unfold interactedIdx
    norm_num [List.range_succ, List.filter_append, List.filter_cons]
  constructor
  · unfold selectTest
    rw [hidx]
    norm_num [nTest]
  · unfold specNTest
    rw [round_eq]
    norm_num
    rfl

/-- Claim C2, amended: for every user row with strictly more than 5
positive cells, exactly `max(1, floor(test_fraction * observed_count))`
distinct positive cells of that row are selected without replacement
(the code truncates `test_fraction * observed_count`, it does not round),
never more than `observed_count`; every row with 5 or fewer positive cells
contributes exactly zero test cells. -/
theorem c2_holdout_amended (sample : List ℕ → ℕ → List ℕ) (ts : ℚ)
    (row : List ℚ) (hs : SampleOk sample) (h0 : 0 ≤ ts) (h1 : ts ≤ 1) :
    (observedCount row ≤ 5 → selectTest sample ts row = []) ∧
    (5 < observedCount row →
      (selectTest sample ts row).length = max 1 (⌊ts * (observedCount row : ℚ)⌋).toNat ∧
      (selectTest sample ts row).length ≤ observedCount row ∧
      (selectTest sample ts row).Nodup ∧
      ∀ i ∈ selectTest sample ts row, 0 < row.getD i 0 ∧ i < row.length) := by
  constructor
  · intro hle
    unfold selectTest
    rw [if_neg (by unfold observedCount at hle; omega)]
  · intro hgt
    unfold observedCount at hgt
    have hle : nTest ts (interactedIdx row).length ≤ (interactedIdx row).length :=
      nTest_le_observed ts _ h0 h1 hgt
    obtain ⟨hlen, hsub⟩ := hs (interactedIdx row) (nTest ts (interactedIdx row).length) hle
    have hsel : selectTest sample ts row =
        sample (interactedIdx row) (nTest ts (interactedIdx row).length) := by
      unfold selectTest
      rw [if_pos hgt]
    have hndpool : (interactedIdx row).Nodup :=
      (List.nodup_range row.length).filter _
    refine ⟨?_, ?_, ?_, ?_⟩
    · rw [hsel, hlen]; rfl
    · rw [hsel, hlen]
      unfold observedCount
      exact hle
    · rw [hsel]; exact subperm_nodup hsub hndpool
    · intro i hi
      rw [hsel] at hi
      have := hsub.subset hi
      unfold interactedIdx at this
      have hmem2 := List.mem_filter.mp this
      refine ⟨by simpa using hmem2.2, List.mem_range.mp hmem2.1⟩

/-- Witness for `c2_holdout_amended`: the prefix sampler on a row with 6
positive cells selects exactly one cell. -/
theorem c2_holdout_amended_witness :
    (observedCount ([1, 1, 1, 1, 1, 1] : List ℚ) ≤ 5 →
      selectTest (fun l n => l.take n) (1 / 5) ([1, 1, 1, 1, 1, 1] : List ℚ) = []) ∧
    (5 < observedCount ([1, 1, 1, 1, 1, 1] : List ℚ) →
      (selectTest (fun l n => l.take n) (1 / 5) ([1, 1, 1, 1, 1, 1] : List ℚ)).length =
        max 1 (⌊(1 / 5 : ℚ) * (observedCount ([1, 1, 1, 1, 1, 1] : List ℚ) : ℚ)⌋).toNat ∧
      (selectTest (fun l n => l.take n) (1 / 5) ([1, 1, 1, 1, 1, 1] : List ℚ)).length ≤
        observedCount ([1, 1, 1, 1, 1, 1] : List ℚ) ∧
      (selectTest (fun l n => l.take n) (1 / 5) ([1, 1, 1, 1, 1, 1] : List ℚ)).Nodup ∧
      ∀ i ∈ selectTest (fun l n => l.take n) (1 / 5) ([1, 1, 1, 1, 1, 1] : List ℚ),
        0 < List.getD ([1, 1, 1, 1, 1, 1] : List ℚ) i 0 ∧
          i < List.length ([1, 1, 1, 1, 1, 1] : List ℚ)) :=
  c2_holdout_amended (fun l n => l.take n) (1 / 5) ([1, 1, 1, 1, 1, 1] : List ℚ)
    (by
      intro l n hn
      refine ⟨by simp [List.length_take]; omega, (List.take_sublist n l).subperm⟩)
    (by norm_num) (by norm_num)

/-! ## C3 / C9: per-user ranking metrics of `evaluate_collaborative_filtering`

Lines 681-693:

    train_items = np.where(train_matrix[u, :] > 0)[0]
    pred_ratings = predicted_ratings[u, :]
    pred_ratings[train_items] = -np.inf
    top_k_items = np.argsort(-pred_ratings)[:k]
    n_relevant_and_recommended = len(set(top_k_items) & set(test_items))
    precision = n_relevant_and_recommended / min(k, len(top_k_items)) if len(top_k_items) > 0 else 0
    recall = n_relevant_and_recommended / len(test_items) if len(test_items) > 0 else 0
-/

/-- Index comparison used to embed `np.argsort(-pred)`: descending by
value, ties broken by ascending index (one deterministic refinement of
numpy's unspecified tie order). -/
def rankLe (v : List (WithBot ℚ)) (i j : ℕ) : Prop :=
  v.getD j ⊥ < v.getD i ⊥ ∨ (v.getD i ⊥ = v.getD j ⊥ ∧ i ≤ j)

instance rankLeDecidable (v : List (WithBot ℚ)) : DecidableRel (rankLe v) :=
  fun i j => by unfold rankLe; infer_instance

instance rankLeTotal (v : List (WithBot ℚ)) : IsTotal ℕ (rankLe v) := by
  constructor
  intro i j
  rcases lt_trichotomy (v.getD j ⊥) (v.getD i ⊥) with h | h | h
  · exact Or.inl (Or.inl h)
  · rcases Nat.le_total i j with hij | hij
    · exact Or.inl (Or.inr ⟨h.symm, hij⟩)
    · exact Or.inr (Or.inr ⟨h, hij⟩)
  · exact Or.inr (Or.inl h)

instance rankLeTrans (v : List (WithBot ℚ)) : IsTrans ℕ (rankLe v) := by
  constructor
  intro i j l hij hjl
  rcases hij with h1 | ⟨e1, le1⟩
  · rcases hjl with h2 | ⟨e2, _⟩
    · exact Or.inl (h2.trans h1)
    · exact Or.inl (e2 ▸ h1)
  · rcases hjl with h2 | ⟨e2, le2⟩
    · exact Or.inl (e1 ▸ h2)
    · exact Or.inr ⟨e1.trans e2, le1.trans le2⟩

/-- `np.argsort(-v)`: the indices `0..len(v)-1` sorted by descending
value (ties by ascending index). -/
def argsortDesc (v : List (WithBot ℚ)) : List ℕ :=
  List.insertionSort (rankLe v) (List.range v.length)

theorem argsortDesc_perm (v : List (WithBot ℚ)) :
    (argsortDesc v).Perm (List.range v.length) :=
  List.perm_insertionSort _ _

theorem argsortDesc_length (v : List (WithBot ℚ)) :
    (argsortDesc v).length = v.length := by
  rw [(argsortDesc_perm v).length_eq, List.length_range]

theorem argsortDesc_nodup (v : List (WithBot ℚ)) : (argsortDesc v).Nodup :=
  ((argsortDesc_perm v).symm).nodup (List.nodup_range _)

theorem argsortDesc_sorted (v : List (WithBot ℚ)) :
    List.Sorted (rankLe v) (argsortDesc v) :=
  List.sorted_insertionSort _ _

theorem mem_argsortDesc (v : List (WithBot ℚ)) (i : ℕ) :
    i ∈ argsortDesc v ↔ i < v.length := by
  rw [(argsortDesc_perm v).mem_iff, List.mem_range]

/-- The score row after `pred_ratings[train_items] = -np.inf`: scores of
columns observed in the train matrix are forced to `⊥`. -/
def maskedPredRow (predRow trainRow : List ℚ) : List (WithBot ℚ) :=
  predRow.mapIdx (fun (i : ℕ) (p : ℚ) =>
    if 0 < trainRow.getD i 0 then (⊥ : WithBot ℚ) else (p : WithBot ℚ))

/-- `np.argsort(-pred_ratings)[:k]`. -/
def topKIdx (k : ℕ) (v : List (WithBot ℚ)) : List ℕ := (argsortDesc v).take k

/-- `len(set(top_k_items) & set(test_items))` for the duplicate-free index
lists produced by the evaluator. -/
def interCount (tk testItems : List ℕ) : ℕ :=
  (tk.filter (fun i => decide (i ∈ testItems))).length

/-- Per-user `precision` of line 692 (divisor `min(k, len(top_k_items))`). -/
def userPrecision (k : ℕ) (predRow trainRow : List ℚ) (testItems : List ℕ) : ℚ :=
  if 0 < (topKIdx k (maskedPredRow predRow trainRow)).length then
    (interCount (topKIdx k (maskedPredRow predRow trainRow)) testItems : ℚ) /
      ((min k (topKIdx k (maskedPredRow predRow trainRow)).length : ℕ) : ℚ)
  else 0

/-- Per-user `recall` of line 693. -/
def userRecall (k : ℕ) (predRow trainRow : List ℚ) (testItems : List ℕ) : ℚ :=
  if 0 < testItems.length then
    (interCount (topKIdx k (maskedPredRow predRow trainRow)) testItems : ℚ) /
      (testItems.length : ℚ)
  else 0

/-- The per-user precision the claim states: intersection size divided by
`k` itself. -/
def specUserPrecision (k : ℕ) (predRow trainRow : List ℚ) (testItems : List ℕ) : ℚ :=
  (interCount (topKIdx k (maskedPredRow predRow trainRow)) testItems : ℚ) / (k : ℚ)

theorem maskedPredRow_length (predRow trainRow : List ℚ) :
    (maskedPredRow predRow trainRow).length = predRow.length := by
  unfold maskedPredRow
  exact List.length_mapIdx

theorem topKIdx_length (k : ℕ) (v : List (WithBot ℚ)) :
    (topKIdx k v).length = min k v.length := by
  unfold topKIdx
  rw [List.length_take, argsortDesc_length]

theorem topKIdx_nodup (k : ℕ) (v : List (WithBot ℚ)) : (topKIdx k v).Nodup :=
  List.Nodup.sublist (List.take_sublist _ _) (argsortDesc_nodup v)

/-- Elements of the top-k dominate (in the masked score order) every index
that was not selected. -/
theorem topKIdx_dominates (k : ℕ) (v : List (WithBot ℚ)) :
    ∀ i ∈ topKIdx k v, ∀ j < v.length, j ∉ topKIdx k v →
      v.getD j ⊥ ≤ v.getD i ⊥ := by
  intro i hi j hj hjn
  unfold topKIdx at hi hjn
  have hsorted : List.Sorted (rankLe v) ((argsortDesc v).take k ++ (argsortDesc v).drop k) := by
    rw [List.take_append_drop]
    exact argsortDesc_sorted v
  have hpair := (List.pairwise_append.mp hsorted).2.2
  have hjmem : j ∈ argsortDesc v := (mem_argsortDesc v j).mpr hj
  have hjdrop : j ∈ (argsortDesc v).drop k := by
    have hj2 : j ∈ (argsortDesc v).take k ++ (argsortDesc v).drop k := by
      rw [List.take_append_drop]; exact hjmem
    rcases List.mem_append.mp hj2 with h | h
    · exact absurd h hjn
    · exact h
  have hrel : rankLe v i j := hpair i hi j hjdrop
  rcases hrel with h | ⟨h, _⟩
  · exact le_of_lt h
  · exact le_of_eq h.symm

/-- Claim C3, counterexample: a user with 6 items, 5 of them training-
observed, one held-out test item, and cutoff `k = 10`. The code computes
precision `1 / min(10, 6) = 1/6`, while the claim's formula
`|recommended ∩ test| / k` gives `1/10`. -/
theorem c3_counterexample :
    userPrecision 10 [9, 8, 7, 6, 5, 4] [0, 1, 1, 1, 1, 1] [0] = 1 / 6 ∧
      specUserPrecision 10 [9, 8, 7, 6, 5, 4] [0, 1, 1, 1, 1, 1] [0] = 1 / 10 ∧
      (1 / 6 : ℚ) ≠ 1 / 10 := by
  have hmask : maskedPredRow [9, 8, 7, 6, 5, 4] [0, 1, 1, 1, 1, 1] =
      [((9 : ℚ) : WithBot ℚ), ⊥, ⊥, ⊥, ⊥, ⊥] := by
    unfold maskedPredRow
    norm_num [List.mapIdx_cons]
  have hsort : argsortDesc [((9 : ℚ) : WithBot ℚ), ⊥, ⊥, ⊥, ⊥, ⊥] =
      [0, 1, 2, 3, 4, 5] := by
    unfold argsortDesc
    norm_num [List.insertionSort, List.orderedInsert, rankLe, List.range_succ]
  refine ⟨?_, ?_, by norm_num⟩
  · unfold userPrecision
    rw [hmask]
    unfold topKIdx
    rw [hsort]
    norm_num [interCount, List.filter]
  · unfold specUserPrecision
    rw [hmask]
    unfold topKIdx
    rw [hsort]
    norm_num [interCount, List.filter]

theorem interCount_le_left (tk testItems : List ℕ) :
    interCount tk testItems ≤ tk.length :=
  List.length_filter_le _ _

theorem interCount_le_right (tk testItems : List ℕ) (htk : tk.Nodup) :
    interCount tk testItems ≤ testItems.length := by
  -- the filtered sublist of `tk` is duplicate-free and contained in
  -- `testItems`, hence a subpermutation of it
  unfold interCount
  have hnd : (tk.filter (fun i => decide (i ∈ testItems))).Nodup := htk.filter _
  have hsub : (tk.filter (fun i => decide (i ∈ testItems))) ⊆ testItems := by
    intro x hx
    exact of_decide_eq_true (List.mem_filter.mp hx).2
  exact (hnd.subperm hsub).length_le

/-- Claim C3, amended: for every user, the evaluator forces the predicted
scores of the training-observed items to negative infinity before
ranking, takes the `min(k, n_items)` highest remaining scores as the
recommended set (every selected index dominates every unselected one), and
computes precision as `|recommended ∩ test| / min(k, n_items)` — the
divisor is `min(k, len(top_k))`, not `k` itself — and recall as
`|recommended ∩ test| / |test items|`. -/
theorem c3_ranking_amended (k : ℕ) (predRow trainRow : List ℚ)
    (testItems : List ℕ) :
    (∀ i < predRow.length, 0 < trainRow.getD i 0 →
      (maskedPredRow predRow trainRow).getD i ⊥ = ⊥) ∧
    (topKIdx k (maskedPredRow predRow trainRow)).length = min k predRow.length ∧
    (∀ i ∈ topKIdx k (maskedPredRow predRow trainRow), ∀ j < predRow.length,
      j ∉ topKIdx k (maskedPredRow predRow trainRow) →
      (maskedPredRow predRow trainRow).getD j ⊥ ≤
        (maskedPredRow predRow trainRow).getD i ⊥) ∧
    userPrecision k predRow trainRow testItems =
      (interCount (topKIdx k (maskedPredRow predRow trainRow)) testItems : ℚ) /
        ((min k predRow.length : ℕ) : ℚ) ∧
    (0 < testItems.length → userRecall k predRow trainRow testItems =
      (interCount (topKIdx k (maskedPredRow predRow trainRow)) testItems : ℚ) /
        (testItems.length : ℚ)) := by
  refine ⟨?_, ?_, ?_, ?_, ?_⟩
  · intro i hi hpos
    have hi' : i < (maskedPredRow predRow trainRow).length := by
      rw [maskedPredRow_length]; exact hi
    rw [List.getD_eq_getElem _ _ hi']
    unfold maskedPredRow
    rw [List.getElem_mapIdx]
    rw [if_pos hpos]
  · rw [topKIdx_length, maskedPredRow_length]
  · intro i hi j hj hjn
    exact topKIdx_dominates k (maskedPredRow predRow trainRow) i hi j
      (by rw [maskedPredRow_length]; exact hj) hjn
  · unfold userPrecision
    by_cases hpos : 0 < (topKIdx k (maskedPredRow predRow trainRow)).length
    · rw [if_pos hpos]
      congr 2
      rw [topKIdx_length, maskedPredRow_length]
      rw [← min_assoc, min_self]
    · rw [if_neg hpos]
      have hlen0 : (topKIdx k (maskedPredRow predRow trainRow)).length = 0 := by omega
      have htk : topKIdx k (maskedPredRow predRow trainRow) = [] :=
        List.length_eq_zero.mp hlen0
      rw [htk]
      unfold interCount
      simp
  · intro hpos
    unfold userRecall
    rw [if_pos hpos]

/-- Witness for `c3_ranking_amended` on a 3-item user with one
train-observed item, `k = 2`, one test item. -/
theorem c3_ranking_amended_witness :
    (maskedPredRow ([1, 2, 3] : List ℚ) ([1, 0, 0] : List ℚ)).getD 0 ⊥ = ⊥ ∧
    (topKIdx 2 (maskedPredRow ([1, 2, 3] : List ℚ) ([1, 0, 0] : List ℚ))).length =
      min 2 (List.length ([1, 2, 3] : List ℚ)) ∧
    (maskedPredRow ([1, 2, 3] : List ℚ) ([1, 0, 0] : List ℚ)).getD 0 ⊥ ≤
      (maskedPredRow ([1, 2, 3] : List ℚ) ([1, 0, 0] : List ℚ)).getD 2 ⊥ ∧
    userPrecision 2 ([1, 2, 3] : List ℚ) ([1, 0, 0] : List ℚ) [1] =
      (interCount (topKIdx 2 (maskedPredRow ([1, 2, 3] : List ℚ)
          ([1, 0, 0] : List ℚ))) [1] : ℚ) /
        ((min 2 (List.length ([1, 2, 3] : List ℚ)) : ℕ) : ℚ) ∧
    userRecall 2 ([1, 2, 3] : List ℚ) ([1, 0, 0] : List ℚ) [1] =
      (interCount (topKIdx 2 (maskedPredRow ([1, 2, 3] : List ℚ)
          ([1, 0, 0] : List ℚ))) [1] : ℚ) /
        ((List.length ([1] : List ℕ)) : ℚ) := by
  have h := c3_ranking_amended 2 ([1, 2, 3] : List ℚ) ([1, 0, 0] : List ℚ) [1]
  have hmask : maskedPredRow ([1, 2, 3] : List ℚ) ([1, 0, 0] : List ℚ) =
      [⊥, ((2 : ℚ) : WithBot ℚ), ((3 : ℚ) : WithBot ℚ)] := by
    unfold maskedPredRow
    norm_num [List.mapIdx_cons]
  have hsort : argsortDesc [⊥, ((2 : ℚ) : WithBot ℚ), ((3 : ℚ) : WithBot ℚ)] =
      [2, 1, 0] := by
    unfold argsortDesc
    norm_num [List.insertionSort, List.orderedInsert, rankLe, List.range_succ]
  have htk : topKIdx 2 (maskedPredRow ([1, 2, 3] : List ℚ) ([1, 0, 0] : List ℚ)) =
      [2, 1] := by
    unfold topKIdx
    rw [hmask, hsort]
    rfl
  refine ⟨h.1 0 (by norm_num) (by norm_num), h.2.1,
    h.2.2.1 2 (by rw [htk]; norm_num) 0 (by norm_num) (by rw [htk]; norm_num),
    h.2.2.2.1, h.2.2.2.2 (by norm_num)⟩

/-- Claim C9: for every user row, train row and test index list, and for
every cutoff `k`, the per-user precision and recall of lines 692-693 lie
in `[0, 1]`. -/
theorem c9_per_user_bounds (k : ℕ) (predRow trainRow : List ℚ)
    (testItems : List ℕ) :
    0 ≤ userPrecision k predRow trainRow testItems ∧
    userPrecision k predRow trainRow testItems ≤ 1 ∧
    0 ≤ userRecall k predRow trainRow testItems ∧
    userRecall k predRow trainRow testItems ≤ 1 := by
  have htknd : (topKIdx k (maskedPredRow predRow trainRow)).Nodup :=
    topKIdx_nodup _ _
  refine ⟨?_, ?_, ?_, ?_⟩
  · unfold userPrecision
    by_cases hpos : 0 < (topKIdx k (maskedPredRow predRow trainRow)).length
    · rw [if_pos hpos]
      positivity
    · rw [if_neg hpos]
  · unfold userPrecision
    by_cases hpos : 0 < (topKIdx k (maskedPredRow predRow trainRow)).length
    · rw [if_pos hpos]
      have hlek : (topKIdx k (maskedPredRow predRow trainRow)).length ≤ k := by
        rw [topKIdx_length]
        exact min_le_left _ _
      rw [min_eq_right hlek]
      rw [div_le_one (by exact_mod_cast hpos)]
      exact_mod_cast interCount_le_left _ testItems
    · rw [if_neg hpos]
      norm_num
  · unfold userRecall
    by_cases hpos : 0 < testItems.length
    · rw [if_pos hpos]
      positivity
    · rw [if_neg hpos]
  · unfold userRecall
    by_cases hpos : 0 < testItems.length
    · rw [if_pos hpos]
      rw [div_le_one (by exact_mod_cast hpos)]
      exact_mod_cast interCount_le_right _ testItems htknd
    · rw [if_neg hpos]
      norm_num


/-! ## The offline evaluators (C5, C6, C8)

`evaluate_collaborative_filtering` (lines 616-722) wraps its whole body in
`try/except Exception` and returns an all-zero metrics dict on any
failure. Failure modes of the body visible in the embedding: `np.dot` on
mismatched factor shapes (ValueError), boolean-mask indexing with a
prediction matrix whose shape differs from the interaction matrix
(IndexError), and `sklearn.mean_squared_error` on empty test-cell arrays
(ValueError).

The dict stores `rmse = sqrt(mse)`; since the square root of a rational is
irrational in general, the embedded record stores the radicand `rmseSq`
(the mean squared error over the gathered cells). `sqrt x = 0` iff
`x = 0`, so zero-ness statements transfer verbatim.
-/

/-- Trained matrix-factorization model passed to the evaluator
(`cf_model['user_factors']`, `cf_model['item_factors']`). -/
structure CFModel where
  user_factors : List (List ℚ)
  item_factors : List (List ℚ)

/-- Post-recommendation model of `evaluate_post_collaborative_filtering`. -/
structure PostCFModel where
  user_factors : List (List ℚ)
  post_factors : List (List ℚ)

/-- Exceptions the evaluator bodies can raise. -/
inductive EvalErr where
  | dimMismatch : EvalErr
  | emptyTest : EvalErr
deriving DecidableEq

/-- The evaluator's metrics record; `rmseSq` is the radicand of the
reported rmse (the source reports `sqrt(rmseSq)`). -/
structure QMetrics where
  rmseSq : ℚ
  precK : ℚ
  recK : ℚ
  f1K : ℚ
deriving DecidableEq

/-- Dot product of two vectors. -/
def dotL (a b : List ℚ) : ℚ := (List.zipWith (fun x y => x * y) a b).sum

/-- Column `j` of a matrix. -/
def colL (B : List (List ℚ)) (j : ℕ) : List ℚ := B.map (fun r => r.getD j 0)

/-- `B.T`. -/
def transposeL (B : List (List ℚ)) : List (List ℚ) :=
  (List.range (nColsM B)).map (colL B)

/-- `np.dot(A, B)` for compatible shapes. -/
def matmulL (A B : List (List ℚ)) : List (List ℚ) :=
  A.map (fun r => (List.range (nColsM B)).map (fun j => dotL r (colL B j)))

/-- `np.dot(A, B)`, raising `ValueError` on inner-dimension mismatch. -/
def matmulE (A B : List (List ℚ)) : Except EvalErr (List (List ℚ)) :=
  if nColsM A = B.length then Except.ok (matmulL A B)
  else Except.error EvalErr.dimMismatch

/-- Lines 657-661: `np.dot(user_factors, item_factors)` after checking
`item_factors.shape[0] == user_factors.shape[1]`, transposing otherwise. -/
def predictedE (cf : CFModel) : Except EvalErr (List (List ℚ)) :=
  if cf.item_factors.length = nColsM cf.user_factors then
    matmulE cf.user_factors cf.item_factors
  else
    matmulE cf.user_factors (transposeL cf.item_factors)

/-- The per-row holdout index lists of the whole matrix (lines 639-646). -/
def testSets (sample : List ℕ → ℕ → List ℕ) (ts : ℚ) (M : List (List ℚ)) :
    List (List ℕ) :=
  M.map (selectTest sample ts)

/-- One row of `train_matrix` (line 649-650): test cells zeroed out. -/
def zeroOutRow (row : List ℚ) (tset : List ℕ) : List ℚ :=
  row.mapIdx (fun (i : ℕ) (v : ℚ) => if i ∈ tset then 0 else v)

/-- `train_matrix = user_item_matrix.copy(); train_matrix[test_mask] = 0`. -/
def trainMatrix (M : List (List ℚ)) (tsets : List (List ℕ)) : List (List ℚ) :=
  List.zipWith zeroOutRow M tsets

/-- `np.where(test_mask[u, :])[0]`: the marked columns of a mask row of
the given width, ascending and duplicate-free. -/
def testIdxRow (tset : List ℕ) (width : ℕ) : List ℕ :=
  (List.range width).filter (fun i => decide (i ∈ tset))

/-- The pairs `(M[u][i], P[u][i])` gathered by one mask row. -/
def rowTestPairs (mrow prow : List ℚ) (tset : List ℕ) (width : ℕ) :
    List (ℚ × ℚ) :=
  (testIdxRow tset width).map (fun i => (mrow.getD i 0, prow.getD i 0))

/-- `user_item_matrix[test_mask]` zipped with `predicted_ratings[test_mask]`
in row-major order (lines 667-668). -/
def allTestPairs (M P : List (List ℚ)) (tsets : List (List ℕ)) :
    List (ℚ × ℚ) :=
  ((List.range M.length).map (fun u =>
    rowTestPairs (M.getD u []) (P.getD u []) (tsets.getD u []) (nColsM M))).flatten

/-- The per-user `(precision, recall)` list of lines 675-696: users whose
mask row is empty are skipped. -/
def perUserPR (k : ℕ) (M P train : List (List ℚ)) (tsets : List (List ℕ)) :
    List (ℚ × ℚ) :=
  (List.range M.length).filterMap (fun u =>
    if (testIdxRow (tsets.getD u []) (nColsM M)).length = 0 then none
    else some
      (userPrecision k (P.getD u []) (train.getD u [])
        (testIdxRow (tsets.getD u []) (nColsM M)),
       userRecall k (P.getD u []) (train.getD u [])
        (testIdxRow (tsets.getD u []) (nColsM M))))

/-- `np.mean(xs) if xs else 0` (lines 699-700). -/
def avgOrZero (l : List ℚ) : ℚ := if l.length = 0 then 0 else l.sum / l.length

/-- Line 703: harmonic mean guarded against a zero divisor. -/
def f1Of (p r : ℚ) : ℚ := if 0 < p + r then 2 * p * r / (p + r) else 0

/-- Assemble the metrics record from the mean squared error and the
per-user precision/recall pairs (lines 698-710). -/
def mkQMetrics (mse : ℚ) (prl : List (ℚ × ℚ)) : QMetrics :=
  ⟨mse, avgOrZero (prl.map Prod.fst), avgOrZero (prl.map Prod.snd),
    f1Of (avgOrZero (prl.map Prod.fst)) (avgOrZero (prl.map Prod.snd))⟩

/-- The `try` body of `evaluate_collaborative_filtering` (lines 632-713). -/
def evalCFBody (sample : List ℕ → ℕ → List ℕ) (cf : CFModel)
    (M : List (List ℚ)) (ts : ℚ) (k : ℕ) : Except EvalErr QMetrics :=
  match predictedE cf with
  | Except.error e => Except.error e
  | Except.ok P =>
    if P.length = M.length ∧ nColsM P = nColsM M then
      if (allTestPairs M P (testSets sample ts M)).length = 0 then
        Except.error EvalErr.emptyTest
      else Except.ok (mkQMetrics
        (((allTestPairs M P (testSets sample ts M)).map
            (fun c => (c.1 - c.2) ^ 2)).sum /
          ((allTestPairs M P (testSets sample ts M)).length : ℚ))
        (perUserPR k M P (trainMatrix M (testSets sample ts M))
          (testSets sample ts M)))
    else Except.error EvalErr.dimMismatch

/-- `evaluate_collaborative_filtering` with its `except` clause
(lines 715-722): any internal failure degrades to all-zero metrics. -/
def evaluate_collaborative_filtering (sample : List ℕ → ℕ → List ℕ)
    (cf : CFModel) (M : List (List ℚ)) (ts : ℚ) (k : ℕ) : QMetrics :=
  match evalCFBody sample cf M ts k with
  | Except.ok m => m
  | Except.error _ => ⟨0, 0, 0, 0⟩

/-! ### The post-model evaluator (lines 1359-1432) -/

/-- Write `M[u][i] = v` (a no-op out of range, like `List.set`). -/
def setCellQ (M : List (List ℚ)) (u i : ℕ) (v : ℚ) : List (List ℚ) :=
  M.set u ((M.getD u []).set i v)

/-- Lines 1367-1382: both `train_matrix` and `test_matrix` start as full
copies of the matrix; for each sampled flat index whose train cell is
positive, the test cell is (re-)assigned that value — a no-op, since
`test_matrix` already holds it — and the train cell is zeroed. Returns
`(train_matrix, test_matrix)`. -/
def postHoldout (idxs : List ℕ) (nPosts : ℕ) (M : List (List ℚ)) :
    List (List ℚ) × List (List ℚ) :=
  idxs.foldl (fun st idx =>
    let u := idx / nPosts
    let p := idx % nPosts
    let v := getC st.1 u p
    if 0 < v then (setCellQ st.1 u p 0, setCellQ st.2 u p v) else st) (M, M)

/-- Ascending argsort (`np.argsort(user_pred)`), ties by index. -/
def rankLeAsc (v : List ℚ) (i j : ℕ) : Prop :=
  v.getD i 0 < v.getD j 0 ∨ (v.getD i 0 = v.getD j 0 ∧ i ≤ j)

instance rankLeAscDecidable (v : List ℚ) : DecidableRel (rankLeAsc v) :=
  fun i j => by unfold rankLeAsc; infer_instance

def argsortAsc (v : List ℚ) : List ℕ :=
  List.insertionSort (rankLeAsc v) (List.range v.length)

/-- Python `s[-k:]` for `k ≥ 0`: the last `k` elements, the whole list
when `k = 0` (since `s[-0:]` is `s[0:]`). -/
def lastK (k : ℕ) (s : List ℕ) : List ℕ :=
  if k = 0 then s else s.drop (s.length - k)

/-- The cell pairs `(T[u][i], P[u][i])` over the strictly positive cells
of `T` (`test_mask = (test_matrix > 0).values`, lines 1390-1392). -/
def posCellPairs (T P : List (List ℚ)) : List (ℚ × ℚ) :=
  ((List.range T.length).map (fun u =>
    ((List.range (nColsM T)).filter (fun i => decide (0 < getC T u i))).map
      (fun i => (getC T u i, getC P u i)))).flatten

/-- Lines 1390-1394: the (squared) rmse over the positive cells of
`test_matrix`, with the explicit zero fallback when that mask is empty. -/
def postRmseSq (T P : List (List ℚ)) : ℚ :=
  if (posCellPairs T P).length = 0 then 0
  else ((posCellPairs T P).map (fun c => (c.1 - c.2) ^ 2)).sum /
    ((posCellPairs T P).length : ℚ)

/-- Lines 1400-1414: per-user precision/recall against the positive cells
of the ORIGINAL matrix, over at most the first 10 users, top-k taken as
the last `k` entries of the ascending argsort. -/
def postUserPR (k : ℕ) (M P : List (List ℚ)) : List (ℚ × ℚ) :=
  (List.range (min 10 M.length)).filterMap (fun u =>
    if (interactedIdx (M.getD u [])).length = 0 then none
    else some
      ((if 0 < k then
          (((lastK k (argsortAsc (P.getD u []))).filter
            (fun i => decide (i ∈ interactedIdx (M.getD u [])))).length : ℚ) / (k : ℚ)
        else 0),
       (if 0 < (interactedIdx (M.getD u [])).length then
          (((lastK k (argsortAsc (P.getD u []))).filter
            (fun i => decide (i ∈ interactedIdx (M.getD u [])))).length : ℚ) /
            ((interactedIdx (M.getD u [])).length : ℚ)
        else 0)))

/-- The `try` body of `evaluate_post_collaborative_filtering`
(lines 1365-1428); `np.random.choice(n_users * n_posts, n_test,
replace=False)` is abstracted as `sampleFlat`. -/
def evalPostBody (sampleFlat : ℕ → ℕ → List ℕ) (cf : PostCFModel)
    (M : List (List ℚ)) (k : ℕ) : Except EvalErr QMetrics :=
  match matmulE cf.user_factors cf.post_factors with
  | Except.error e => Except.error e
  | Except.ok P =>
    if P.length = M.length ∧ nColsM P = nColsM M then
      Except.ok (mkQMetrics
        (postRmseSq
          (postHoldout
            (sampleFlat (M.length * nColsM M)
              ((⌊(1 / 5 : ℚ) * ((M.length * nColsM M : ℕ) : ℚ)⌋).toNat))
            (nColsM M) M).2 P)
        (postUserPR k M P))
    else Except.error EvalErr.dimMismatch

/-- `evaluate_post_collaborative_filtering` with its `except` clause
(lines 1430-1432). -/
def evaluate_post_collaborative_filtering (sampleFlat : ℕ → ℕ → List ℕ)
    (cf : PostCFModel) (M : List (List ℚ)) (k : ℕ) : QMetrics :=
  match evalPostBody sampleFlat cf M k with
  | Except.ok m => m
  | Except.error _ => ⟨0, 0, 0, 0⟩

/-- Claim C5: for every input, neither evaluator propagates a failure to
its caller: each returns either the metrics its body computed, or — when
the body raised — the record whose rmse, precision, recall and f1 entries
are all exactly `0`. -/
theorem c5_evaluator_never_raises (sample : List ℕ → ℕ → List ℕ)
    (cf : CFModel) (M : List (List ℚ)) (ts : ℚ) (k : ℕ)
    (sampleFlat : ℕ → ℕ → List ℕ) (cfp : PostCFModel)
    (M2 : List (List ℚ)) (k2 : ℕ) :
    ((∃ m, evalCFBody sample cf M ts k = Except.ok m ∧
        evaluate_collaborative_filtering sample cf M ts k = m) ∨
      (∃ e, evalCFBody sample cf M ts k = Except.error e ∧
        evaluate_collaborative_filtering sample cf M ts k =
          ⟨0, 0, 0, 0⟩)) ∧
    ((∃ m, evalPostBody sampleFlat cfp M2 k2 = Except.ok m ∧
        evaluate_post_collaborative_filtering sampleFlat cfp M2 k2 = m) ∨
      (∃ e, evalPostBody sampleFlat cfp M2 k2 = Except.error e ∧
        evaluate_post_collaborative_filtering sampleFlat cfp M2 k2 =
          ⟨0, 0, 0, 0⟩)) := by
  constructor
  · cases hB : evalCFBody sample cf M ts k with
    | ok m =>
      exact Or.inl ⟨m, rfl, by unfold evaluate_collaborative_filtering; rw [hB]⟩
    | error e =>
      exact Or.inr ⟨e, rfl, by unfold evaluate_collaborative_filtering; rw [hB]⟩
  · cases hB : evalPostBody sampleFlat cfp M2 k2 with
    | ok m =>
      exact Or.inl ⟨m, rfl, by
        unfold evaluate_post_collaborative_filtering; rw [hB]⟩
    | error e =>
      exact Or.inr ⟨e, rfl, by
        unfold evaluate_post_collaborative_filtering; rw [hB]⟩

/-! Helper lemmas for C8. -/

theorem userPrecision_nonneg (k : ℕ) (predRow trainRow : List ℚ)
    (testItems : List ℕ) : 0 ≤ userPrecision k predRow trainRow testItems := by
  unfold userPrecision
  by_cases hpos : 0 < (topKIdx k (maskedPredRow predRow trainRow)).length
  · rw [if_pos hpos]; positivity
  · rw [if_neg hpos]

theorem userRecall_nonneg (k : ℕ) (predRow trainRow : List ℚ)
    (testItems : List ℕ) : 0 ≤ userRecall k predRow trainRow testItems := by
  unfold userRecall
  by_cases hpos : 0 < testItems.length
  · rw [if_pos hpos]; positivity
  · rw [if_neg hpos]

theorem avgOrZero_nonneg (l : List ℚ) (h : ∀ x ∈ l, 0 ≤ x) :
    0 ≤ avgOrZero l := by
  unfold avgOrZero
  by_cases hl : l.length = 0
  · rw [if_pos hl]
  · rw [if_neg hl]
    have hs : 0 ≤ l.sum := List.sum_nonneg h
    positivity

theorem perUserPR_nonneg (k : ℕ) (M P train : List (List ℚ))
    (tsets : List (List ℕ)) :
    (∀ x ∈ (perUserPR k M P train tsets).map Prod.fst, 0 ≤ x) ∧
    (∀ x ∈ (perUserPR k M P train tsets).map Prod.snd, 0 ≤ x) := by
  constructor
  · intro x hx
    obtain ⟨pr, hpr, rfl⟩ := List.mem_map.mp hx
    obtain ⟨u, _, hu⟩ := List.mem_filterMap.mp hpr
    by_cases hc : (testIdxRow (tsets.getD u []) (nColsM M)).length = 0
    · rw [if_pos hc] at hu; cases hu
    · rw [if_neg hc] at hu
      obtain rfl := Option.some_injective _ hu
      exact userPrecision_nonneg _ _ _ _
  · intro x hx
    obtain ⟨pr, hpr, rfl⟩ := List.mem_map.mp hx
    obtain ⟨u, _, hu⟩ := List.mem_filterMap.mp hpr
    by_cases hc : (testIdxRow (tsets.getD u []) (nColsM M)).length = 0
    · rw [if_pos hc] at hu; cases hu
    · rw [if_neg hc] at hu
      obtain rfl := Option.some_injective _ hu
      exact userRecall_nonneg _ _ _ _

theorem mkQMetrics_f1_form (mse : ℚ) (prl : List (ℚ × ℚ)) :
    (mkQMetrics mse prl).f1K =
      if 0 < (mkQMetrics mse prl).precK + (mkQMetrics mse prl).recK then
        2 * (mkQMetrics mse prl).precK * (mkQMetrics mse prl).recK /
          ((mkQMetrics mse prl).precK + (mkQMetrics mse prl).recK)
      else 0 := rfl

/-- Every `ok` result of the main evaluator body is an `mkQMetrics` record
over the test pairs and the per-user precision/recall list. -/
theorem evalCFBody_ok_form (sample : List ℕ → ℕ → List ℕ) (cf : CFModel)
    (M : List (List ℚ)) (ts : ℚ) (k : ℕ) (m : QMetrics)
    (h : evalCFBody sample cf M ts k = Except.ok m) :
    ∃ P, predictedE cf = Except.ok P ∧
      (P.length = M.length ∧ nColsM P = nColsM M) ∧
      0 < (allTestPairs M P (testSets sample ts M)).length ∧
      m = mkQMetrics
        (((allTestPairs M P (testSets sample ts M)).map
            (fun c => (c.1 - c.2) ^ 2)).sum /
          ((allTestPairs M P (testSets sample ts M)).length : ℚ))
        (perUserPR k M P (trainMatrix M (testSets sample ts M))
          (testSets sample ts M)) := by
  unfold evalCFBody at h
  split at h
  · cases h
  · rename_i P heq
    split at h
    · rename_i hsh
      split at h
      · cases h
      · rename_i hz
        refine ⟨P, heq, hsh, by omega, ?_⟩
        exact ((Except.ok.injEq _ _).mp h).symm
    · cases h

/-- Claim C8: for every input, the evaluator's averaged precision and
recall are nonnegative and its F1@k equals the guarded harmonic mean
`2*p*r/(p+r)` when `p + r > 0` and `0` otherwise — in particular F1 is `0`
when both averages are `0`, and the division is only ever taken with a
strictly positive divisor. -/
theorem c8_f1_guard (sample : List ℕ → ℕ → List ℕ) (cf : CFModel)
    (M : List (List ℚ)) (ts : ℚ) (k : ℕ) :
    0 ≤ (evaluate_collaborative_filtering sample cf M ts k).precK ∧
    0 ≤ (evaluate_collaborative_filtering sample cf M ts k).recK ∧
    (evaluate_collaborative_filtering sample cf M ts k).f1K =
      (if 0 < (evaluate_collaborative_filtering sample cf M ts k).precK +
          (evaluate_collaborative_filtering sample cf M ts k).recK then
        2 * (evaluate_collaborative_filtering sample cf M ts k).precK *
            (evaluate_collaborative_filtering sample cf M ts k).recK /
          ((evaluate_collaborative_filtering sample cf M ts k).precK +
            (evaluate_collaborative_filtering sample cf M ts k).recK)
      else 0) := by
  cases hB : evalCFBody sample cf M ts k with
  | error e =>
    have hE : evaluate_collaborative_filtering sample cf M ts k = ⟨0, 0, 0, 0⟩ := by
      unfold evaluate_collaborative_filtering
      rw [hB]
    rw [hE]
    norm_num
  | ok m =>
    have hE : evaluate_collaborative_filtering sample cf M ts k = m := by
      unfold evaluate_collaborative_filtering
      rw [hB]
    rw [hE]
    obtain ⟨P, hP, hsh, hpos, rfl⟩ := evalCFBody_ok_form sample cf M ts k m hB
    obtain ⟨h1, h2⟩ := perUserPR_nonneg k M P
      (trainMatrix M (testSets sample ts M)) (testSets sample ts M)
    exact ⟨avgOrZero_nonneg _ h1, avgOrZero_nonneg _ h2, mkQMetrics_f1_form _ _⟩

/-! Helper lemmas for C6. -/

theorem sum_map_flatten (f : ℚ × ℚ → ℚ) :
    ∀ L : List (List (ℚ × ℚ)),
      ((L.flatten).map f).sum = (L.map (fun l => (l.map f).sum)).sum := by
  intro L
  induction L with
  | nil => simp
  | cons l ls ih => simp [List.flatten_cons, ih, Function.comp_def]

theorem length_flatten_pairs :
    ∀ L : List (List (ℚ × ℚ)),
      (L.flatten).length = (L.map List.length).sum := by
  intro L
  induction L with
  | nil => simp
  | cons l ls ih => simp [List.flatten_cons, ih]

theorem testIdxRow_nil (w : ℕ) : testIdxRow [] w = [] := by
  unfold testIdxRow
  simp

theorem testSets_getD_sparse (sample : List ℕ → ℕ → List ℕ) (ts : ℚ)
    (M : List (List ℚ)) (h5 : ∀ row ∈ M, observedCount row ≤ 5) (u : ℕ) :
    (testSets sample ts M).getD u [] = [] := by
  unfold testSets
  by_cases hu : u < M.length
  · have hlen : u < (M.map (selectTest sample ts)).length := by
      rw [List.length_map]; exact hu
    rw [List.getD_eq_getElem _ _ hlen, List.getElem_map]
    have hrow : M[u] ∈ M := List.getElem_mem _
    have := h5 M[u] hrow
    unfold selectTest
    rw [if_neg (by unfold observedCount at this; omega)]
  · rw [List.getD_eq_default]
    rw [List.length_map]
    omega

theorem allTestPairs_sparse (sample : List ℕ → ℕ → List ℕ) (ts : ℚ)
    (M P : List (List ℚ)) (h5 : ∀ row ∈ M, observedCount row ≤ 5) :
    allTestPairs M P (testSets sample ts M) = [] := by
  unfold allTestPairs
  rw [List.flatten_eq_nil_iff]
  intro l hl
  obtain ⟨u, _, rfl⟩ := List.mem_map.mp hl
  rw [testSets_getD_sparse sample ts M h5 u]
  unfold rowTestPairs
  rw [testIdxRow_nil]
  rfl

theorem evalCFBody_sparse_error (sample : List ℕ → ℕ → List ℕ)
    (cf : CFModel) (M : List (List ℚ)) (ts : ℚ) (k : ℕ)
    (h5 : ∀ row ∈ M, observedCount row ≤ 5) :
    ∃ e, evalCFBody sample cf M ts k = Except.error e := by
  unfold evalCFBody
  split
  · rename_i e _
    exact ⟨e, rfl⟩
  · rename_i P heq
    split
    · split
      · exact ⟨EvalErr.emptyTest, rfl⟩
      · rename_i h0
        exfalso
        apply h0
        rw [allTestPairs_sparse sample ts M P h5]
        rfl
    · exact ⟨EvalErr.dimMismatch, rfl⟩

theorem mkQMetrics_rmseSq (a : ℚ) (l : List (ℚ × ℚ)) :
    (mkQMetrics a l).rmseSq = a := rfl

theorem c6aux_sparse_zero (sample : List ℕ → ℕ → List ℕ) (cf : CFModel)
    (M : List (List ℚ)) (ts : ℚ) (k : ℕ)
    (h5 : ∀ row ∈ M, observedCount row ≤ 5) :
    evaluate_collaborative_filtering sample cf M ts k = ⟨0, 0, 0, 0⟩ := by
  obtain ⟨e, he⟩ := evalCFBody_sparse_error sample cf M ts k h5
  unfold evaluate_collaborative_filtering
  rw [he]

theorem c6aux_rmse_form (sample : List ℕ → ℕ → List ℕ) (cf : CFModel)
    (M : List (List ℚ)) (ts : ℚ) (k : ℕ) (P : List (List ℚ)) (m : QMetrics)
    (hP : predictedE cf = Except.ok P)
    (hB : evalCFBody sample cf M ts k = Except.ok m) :
    m.rmseSq =
      (((List.range M.length).map (fun u =>
        ((testIdxRow ((testSets sample ts M).getD u []) (nColsM M)).map
          (fun i => (getC M u i - getC P u i) ^ 2)).sum)).sum) /
      ((((List.range M.length).map (fun u =>
        (testIdxRow ((testSets sample ts M).getD u []) (nColsM M)).length)).sum : ℕ) : ℚ) := by
  obtain ⟨P', hP', hsh, hpos, rfl⟩ := evalCFBody_ok_form sample cf M ts k m hB
  rw [hP] at hP'
  obtain rfl : P = P' := (Except.ok.injEq _ _).mp hP'
  rw [mkQMetrics_rmseSq]
  have e1 : ((allTestPairs M P (testSets sample ts M)).map
      (fun c => (c.1 - c.2) ^ 2)).sum =
      ((List.range M.length).map (fun u =>
        ((testIdxRow ((testSets sample ts M).getD u []) (nColsM M)).map
          (fun i => (getC M u i - getC P u i) ^ 2)).sum)).sum := by
    unfold allTestPairs
    rw [sum_map_flatten, List.map_map]
    congr 1
    apply List.map_congr_left
    intro u _
    unfold rowTestPairs
    simp only [List.map_map, Function.comp_def]
    rfl
  have e2 : (allTestPairs M P (testSets sample ts M)).length =
      ((List.range M.length).map (fun u =>
        (testIdxRow ((testSets sample ts M).getD u []) (nColsM M)).length)).sum := by
    unfold allTestPairs
    rw [length_flatten_pairs, List.map_map]
    congr 1
    apply List.map_congr_left
    intro u _
    unfold rowTestPairs
    simp
  rw [e1, e2]

theorem c6aux_post_concrete :
    postHoldout [] 2 [[2, 3]] = ([[2, 3]], [[2, 3]]) ∧
    evalPostBody (fun a b => ([] : List ℕ)) ⟨[[1]], [[0, 0]]⟩ [[2, 3]] 10 =
      Except.ok ⟨13 / 2, 1 / 5, 1, 1 / 3⟩ := by
  constructor
  · rfl
  · have hmm : matmulE [[1]] [[0, 0]] = Except.ok [[0, 0]] := by
      unfold matmulE matmulL nColsM colL dotL
      norm_num [List.range_succ]
    have hr : postRmseSq [[2, 3]] [[0, 0]] = 13 / 2 := by
      unfold postRmseSq posCellPairs nColsM getC
      norm_num [List.range_succ, List.filter_cons, List.filter_nil]
    have hpr : postUserPR 10 [[2, 3]] [[0, 0]] = [(1 / 5, 1)] := by
      unfold postUserPR
      have hidx : interactedIdx [2, 3] = [0, 1] := by
        unfold interactedIdx
        norm_num [List.range_succ, List.filter_cons, List.filter_nil]
      have hsort : argsortAsc [0, 0] = [0, 1] := by
        unfold argsortAsc
        norm_num [List.insertionSort, List.orderedInsert, rankLeAsc,
          List.range_succ]
      norm_num [hidx, hsort, lastK, List.filter_cons, List.filter_nil,
        List.range_succ, List.filterMap_cons, List.filterMap_nil]
      simp
    have hmk : mkQMetrics (13 / 2) [(1 / 5, 1)] =
        (⟨13 / 2, 1 / 5, 1, 1 / 3⟩ : QMetrics) := by
      unfold mkQMetrics avgOrZero f1Of
      norm_num
    simp only [evalPostBody]
    rw [hmm]
    simp only [nColsM]
    norm_num [hpr]
    rw [show (postHoldout [] 2 [[2, 3]]).2 = [[2, 3]] from rfl, hr, hmk]

/-- Claim C6 (code bug in `evaluate_post_collaborative_filtering`):
the main evaluator's (squared) rmse is the mean squared error over exactly
the held-out test cells, and when no user has more than 5 positive
interactions the holdout is empty and the caller receives rmse exactly `0`
(through the all-zero failure record). In the post-variant, however,
`test_matrix` is an unmodified copy of the original matrix, so its rmse is
taken over every positive cell of the original matrix rather than over the
held-out cells: at a `1 x 2` matrix `[[2, 3]]` whose holdout is empty
(`n_test = int(0.2 * 2) = 0`, so no cell is zeroed from the train copy),
the reported rmse is `sqrt(13/2)`, not `0`. -/
theorem c6_rmse_test_cells :
    (∀ (sample : List ℕ → ℕ → List ℕ) (cf : CFModel) (M : List (List ℚ))
      (ts : ℚ) (k : ℕ),
      (∀ row ∈ M, observedCount row ≤ 5) →
      evaluate_collaborative_filtering sample cf M ts k = ⟨0, 0, 0, 0⟩) ∧
    (∀ (sample : List ℕ → ℕ → List ℕ) (cf : CFModel) (M : List (List ℚ))
      (ts : ℚ) (k : ℕ) (P : List (List ℚ)) (m : QMetrics),
      predictedE cf = Except.ok P →
      evalCFBody sample cf M ts k = Except.ok m →
      m.rmseSq =
        (((List.range M.length).map (fun u =>
          ((testIdxRow ((testSets sample ts M).getD u []) (nColsM M)).map
            (fun i => (getC M u i - getC P u i) ^ 2)).sum)).sum) /
        ((((List.range M.length).map (fun u =>
          (testIdxRow ((testSets sample ts M).getD u []) (nColsM M)).length)).sum : ℕ) : ℚ)) ∧
    (postHoldout [] 2 [[2, 3]] = ([[2, 3]], [[2, 3]]) ∧
      evalPostBody (fun a b => ([] : List ℕ)) ⟨[[1]], [[0, 0]]⟩ [[2, 3]] 10 =
        Except.ok ⟨13 / 2, 1 / 5, 1, 1 / 3⟩) :=
  ⟨c6aux_sparse_zero, c6aux_rmse_form, c6aux_post_concrete⟩

theorem c6witness_predictedE :
    predictedE ⟨[[1]], [[2, 3, 4, 5, 6, 7]]⟩ = Except.ok [[2, 3, 4, 5, 6, 7]] := by
  unfold predictedE matmulE matmulL nColsM colL dotL
  norm_num [List.range_succ]

theorem c6witness_testSets :
    testSets (fun l n => l.take n) (1 / 5) [[1, 1, 1, 1, 1, 1]] = [[0]] := by
  unfold testSets selectTest interactedIdx nTest
  norm_num [List.range_succ, List.filter_cons, List.filter_nil, List.filter_append]

theorem c6witness_body :
    evalCFBody (fun l n => l.take n) ⟨[[1]], [[2, 3, 4, 5, 6, 7]]⟩
      [[1, 1, 1, 1, 1, 1]] (1 / 5) 1 = Except.ok ⟨1, 1, 1, 1⟩ := by
  have hpairs : allTestPairs [[1, 1, 1, 1, 1, 1]] [[2, 3, 4, 5, 6, 7]] [[0]] =
      [(1, 2)] := by
    unfold allTestPairs rowTestPairs testIdxRow nColsM
    norm_num [List.range_succ, List.filter_cons, List.filter_nil,
      List.filter_append]
  have htrain : trainMatrix [[1, 1, 1, 1, 1, 1]] [[0]] = [[0, 1, 1, 1, 1, 1]] := by
    unfold trainMatrix zeroOutRow
    norm_num [List.zipWith, List.mapIdx_cons]
  have hmask : maskedPredRow [2, 3, 4, 5, 6, 7] [0, 1, 1, 1, 1, 1] =
      [((2 : ℚ) : WithBot ℚ), ⊥, ⊥, ⊥, ⊥, ⊥] := by
    unfold maskedPredRow
    norm_num [List.mapIdx_cons]
  have hsort : argsortDesc [((2 : ℚ) : WithBot ℚ), ⊥, ⊥, ⊥, ⊥, ⊥] =
      [0, 1, 2, 3, 4, 5] := by
    unfold argsortDesc
    norm_num [List.insertionSort, List.orderedInsert, rankLe, List.range_succ]
  have hup : userPrecision 1 [2, 3, 4, 5, 6, 7] [0, 1, 1, 1, 1, 1] [0] = 1 := by
    unfold userPrecision topKIdx
    rw [hmask, hsort]
    norm_num [interCount, List.filter]
  have hur : userRecall 1 [2, 3, 4, 5, 6, 7] [0, 1, 1, 1, 1, 1] [0] = 1 := by
    unfold userRecall topKIdx
    rw [hmask, hsort]
    norm_num [interCount, List.filter]
  have hPR : perUserPR 1 [[1, 1, 1, 1, 1, 1]] [[2, 3, 4, 5, 6, 7]]
      [[0, 1, 1, 1, 1, 1]] [[0]] = [(1, 1)] := by
    unfold perUserPR
    have hti : testIdxRow [0] (nColsM [[1, 1, 1, 1, 1, 1]]) = [0] := by
      unfold testIdxRow nColsM
      norm_num [List.range_succ, List.filter_cons, List.filter_nil,
        List.filter_append]
    norm_num [List.range_succ, List.filterMap_cons, List.filterMap_nil, hti,
      hup, hur]
  have hmk : mkQMetrics 1 [((1 : ℚ), (1 : ℚ))] = (⟨1, 1, 1, 1⟩ : QMetrics) := by
    unfold mkQMetrics avgOrZero f1Of
    norm_num
  simp only [evalCFBody]
  rw [c6witness_predictedE, c6witness_testSets]
  norm_num [hpairs, htrain, hPR, nColsM]
  exact hmk

/-- Witness for `c6_rmse_test_cells`: a matrix whose only user has one
positive cell receives all-zero metrics, and a matrix whose only user has
six positive cells (one held out by the prefix sampler) gets mean squared
error `1` over exactly that held-out cell. -/
theorem c6_rmse_test_cells_witness :
    evaluate_collaborative_filtering (fun l n => l.take n)
      ⟨[[1]], [[2, 3, 4, 5, 6, 7]]⟩ [[1]] (1 / 5) 1 = ⟨0, 0, 0, 0⟩ ∧
    (⟨1, 1, 1, 1⟩ : QMetrics).rmseSq =
      (((List.range (List.length ([[1, 1, 1, 1, 1, 1]] : List (List ℚ)))).map
        (fun u =>
        ((testIdxRow
            ((testSets (fun l n => l.take n) (1 / 5) [[1, 1, 1, 1, 1, 1]]).getD u [])
            (nColsM [[1, 1, 1, 1, 1, 1]])).map
          (fun i => (getC [[1, 1, 1, 1, 1, 1]] u i -
            getC [[2, 3, 4, 5, 6, 7]] u i) ^ 2)).sum)).sum) /
      ((((List.range (List.length ([[1, 1, 1, 1, 1, 1]] : List (List ℚ)))).map
        (fun u =>
        (testIdxRow
          ((testSets (fun l n => l.take n) (1 / 5) [[1, 1, 1, 1, 1, 1]]).getD u [])
          (nColsM [[1, 1, 1, 1, 1, 1]])).length)).sum : ℕ) : ℚ) :=
  ⟨c6_rmse_test_cells.1 (fun l n => l.take n) ⟨[[1]], [[2, 3, 4, 5, 6, 7]]⟩
      [[1]] (1 / 5) 1
      (by
        intro row hrow
        have hr : row = [1] := by simpa using hrow
        subst hr
        norm_num [observedCount, interactedIdx, List.range_succ,
          List.filter_cons, List.filter_nil]),
   c6_rmse_test_cells.2.1 (fun l n => l.take n) ⟨[[1]], [[2, 3, 4, 5, 6, 7]]⟩
      [[1, 1, 1, 1, 1, 1]] (1 / 5) 1 [[2, 3, 4, 5, 6, 7]] ⟨1, 1, 1, 1⟩
      c6witness_predictedE c6witness_body⟩

/-! ## C4 / C7: the training loops and their early stopping

`train_collaborative_filtering` (lines 200-246, quick variant: budget 50,
patience 5) and the PyTorch branch of `train_hybrid_recommendation_model`
(lines 904-943, full variant: budget 25, patience 3) share the loop shape:

    best_loss = float('inf'); patience_counter = 0
    for epoch in range(budget):
        loss = <data loss + L2 term at current factors>
        optimizer.zero_grad(); loss.backward(); optimizer.step()
        if loss.item() < best_loss:
            best_loss = loss.item(); patience_counter = 0
        else:
            patience_counter += 1
            if patience_counter >= patience:
                break

The per-epoch loss value and the Adam update are float computations
abstracted as `lossFn` and `updateFn`; the loop bookkeeping (best, counter,
break) is embedded exactly. `float('inf')` becomes `⊤ : WithTop ℚ`. -/

structure TrainState (α : Type) where
  factors : α
  best : WithTop ℚ
  counter : ℕ
  epochsDone : ℕ
  losses : List ℚ

/-- The training loop; `fuel` is the remaining epoch budget. The optimizer
step runs before the early-stopping check, exactly as in the source. -/
def runEpochs {α : Type} (lossFn : α → ℚ) (updateFn : α → α) (patience : ℕ) :
    ℕ → TrainState α → TrainState α
  | 0, s => s
  | fuel + 1, s =>
    if ((lossFn s.factors : ℚ) : WithTop ℚ) < s.best then
      runEpochs lossFn updateFn patience fuel
        ⟨updateFn s.factors, ((lossFn s.factors : ℚ) : WithTop ℚ), 0,
          s.epochsDone + 1, s.losses ++ [lossFn s.factors]⟩
    else if patience ≤ s.counter + 1 then
      ⟨updateFn s.factors, s.best, s.counter + 1, s.epochsDone + 1,
        s.losses ++ [lossFn s.factors]⟩
    else
      runEpochs lossFn updateFn patience fuel
        ⟨updateFn s.factors, s.best, s.counter + 1, s.epochsDone + 1,
          s.losses ++ [lossFn s.factors]⟩

/-- The quick variant's loop: 50 epochs, patience 5 (lines 202-239). -/
def trainLoopQuick {α : Type} (lossFn : α → ℚ) (updateFn : α → α)
    (init : α) : TrainState α :=
  runEpochs lossFn updateFn 5 50 ⟨init, ⊤, 0, 0, []⟩

/-- The full variant's loop: 25 epochs, patience 3 (lines 904-939). -/
def trainLoopFull {α : Type} (lossFn : α → ℚ) (updateFn : α → α)
    (init : α) : TrainState α :=
  runEpochs lossFn updateFn 3 25 ⟨init, ⊤, 0, 0, []⟩

/-- Factor pair `(user_factors, post_factors)`. -/
def CFFactors : Type := (List (List ℚ)) × (List (List ℚ))

/-- The model dict returned by `train_collaborative_filtering`
(lines 241-246): final factors and `best_loss`. -/
structure CFModelOut where
  user_factors : List (List ℚ)
  post_factors : List (List ℚ)
  final_loss : WithTop ℚ

/-- `train_collaborative_filtering`: run the quick loop and return the
final (post-update) factors with the best loss seen. -/
def train_collaborative_filtering (lossFn : CFFactors → ℚ)
    (updateFn : CFFactors → CFFactors) (init : CFFactors) : CFModelOut :=
  ⟨(trainLoopQuick lossFn updateFn init).factors.1,
   (trainLoopQuick lossFn updateFn init).factors.2,
   (trainLoopQuick lossFn updateFn init).best⟩

/-- The loss the loop would compute at epoch `n` (the factors have been
updated `n` times when epoch `n` starts). -/
def lossSeq {α : Type} (lossFn : α → ℚ) (updateFn : α → α) (f0 : α)
    (n : ℕ) : ℚ :=
  lossFn (updateFn^[n] f0)

/-- Epoch `j` improves iff its loss is strictly below every earlier loss
(equivalently, below the running best, `lt_pmin_iff`). -/
def improves (ls : ℕ → ℚ) (j : ℕ) : Prop := ∀ i < j, ls j < ls i

instance improvesDecidable (ls : ℕ → ℚ) (j : ℕ) : Decidable (improves ls j) :=
  Nat.decidableBallLT j (fun i _ => ls j < ls i)

/-- The `best_loss` value entering epoch `j`: minimum of the first `j`
losses, `⊤` (`float('inf')`) before the first epoch. -/
def pmin (ls : ℕ → ℚ) : ℕ → WithTop ℚ
  | 0 => ⊤
  | j + 1 => min (pmin ls j) ((ls j : ℚ) : WithTop ℚ)

/-- The `patience_counter` value after epoch `e`. -/
def counterAfter (ls : ℕ → ℚ) : ℕ → ℕ
  | 0 => 0
  | e + 1 => if improves ls (e + 1) then 0 else counterAfter ls e + 1

/-- The `patience_counter` value entering epoch `j`. -/
def cBefore (ls : ℕ → ℚ) : ℕ → ℕ
  | 0 => 0
  | j + 1 => counterAfter ls j

/-- Number of epochs the loop executes starting at epoch `j` with `fuel`
epochs of budget left. -/
def execCountFrom (ls : ℕ → ℚ) (p : ℕ) : ℕ → ℕ → ℕ
  | 0, _ => 0
  | fuel + 1, j =>
    if p ≤ counterAfter ls j then 1 else 1 + execCountFrom ls p fuel (j + 1)

theorem lt_pmin_iff (ls : ℕ → ℚ) (x : ℚ) :
    ∀ j, ((x : WithTop ℚ) < pmin ls j ↔ ∀ i < j, x < ls i) := by
  intro j
  induction j with
  | zero =>
    simp [pmin, WithTop.coe_lt_top]
  | succ j ih =>
    rw [pmin, lt_min_iff, ih, WithTop.coe_lt_coe]
    constructor
    · rintro ⟨h1, h2⟩ i hi
      rcases Nat.lt_succ_iff_lt_or_eq.mp hi with h | rfl
      · exact h1 i h
      · exact h2
    · intro h
      exact ⟨fun i hi => h i (Nat.lt_succ_of_lt hi), h j (Nat.lt_succ_self j)⟩

theorem improves_iff_lt_pmin (ls : ℕ → ℚ) (j : ℕ) :
    improves ls j ↔ ((ls j : ℚ) : WithTop ℚ) < pmin ls j :=
  (lt_pmin_iff ls (ls j) j).symm

theorem improves_zero (ls : ℕ → ℚ) : improves ls 0 := by
  intro i hi
  omega

theorem counterAfter_of_improves (ls : ℕ → ℚ) (e : ℕ)
    (h : improves ls e) : counterAfter ls e = 0 := by
  cases e with
  | zero => rfl
  | succ e => rw [counterAfter, if_pos h]

theorem counterAfter_of_not_improves (ls : ℕ → ℚ) (j : ℕ)
    (h : ¬ improves ls j) : counterAfter ls j = cBefore ls j + 1 := by
  cases j with
  | zero => exact absurd (improves_zero ls) h
  | succ j => rw [counterAfter, if_neg h]; rfl

theorem pmin_succ_of_improves (ls : ℕ → ℚ) (j : ℕ) (h : improves ls j) :
    pmin ls (j + 1) = ((ls j : ℚ) : WithTop ℚ) := by
  rw [pmin]
  exact min_eq_right (le_of_lt ((improves_iff_lt_pmin ls j).mp h))

theorem pmin_succ_of_not_improves (ls : ℕ → ℚ) (j : ℕ)
    (h : ¬ improves ls j) : pmin ls (j + 1) = pmin ls j := by
  rw [pmin]
  apply min_eq_left
  rw [← not_lt]
  intro hlt
  exact h ((improves_iff_lt_pmin ls j).mpr hlt)

theorem counterAfter_streak (ls : ℕ → ℚ) :
    ∀ (e c : ℕ), c ≤ counterAfter ls e ↔ ∀ t < c, ¬ improves ls (e - t) := by
  intro e
  induction e with
  | zero =>
    intro c
    constructor
    · intro hc t ht
      rw [counterAfter] at hc
      omega
    · intro h
      by_contra hc
      rw [counterAfter] at hc
      have hc1 : 1 ≤ c := by omega
      exact h 0 (by omega) (improves_zero ls)
  | succ e ih =>
    intro c
    by_cases himp : improves ls (e + 1)
    · rw [counterAfter, if_pos himp]
      constructor
      · intro hc t ht
        interval_cases c
        omega
      · intro h
        by_contra hc
        exact h 0 (by omega) (by simpa using himp)
    · rw [counterAfter, if_neg himp]
      cases c with
      | zero => simp
      | succ c =>
        rw [Nat.succ_le_succ_iff, ih c]
        constructor
        · intro h t ht
          cases t with
          | zero => simpa using himp
          | succ t =>
            have := h t (by omega)
            simpa [Nat.succ_sub_succ] using this
        · intro h t ht
          have := h (t + 1) (by omega)
          simpa [Nat.succ_sub_succ] using this

theorem runEpochs_master {α : Type} (lossFn : α → ℚ) (updateFn : α → α)
    (p : ℕ) (hp : 0 < p) (f0 : α) :
    ∀ (fuel j e : ℕ) (L : List ℚ) (b : WithTop ℚ) (c : ℕ),
      b = pmin (lossSeq lossFn updateFn f0) j →
      c = cBefore (lossSeq lossFn updateFn f0) j →
      (runEpochs lossFn updateFn p fuel
          ⟨updateFn^[j] f0, b, c, e, L⟩).epochsDone =
        e + execCountFrom (lossSeq lossFn updateFn f0) p fuel j ∧
      (runEpochs lossFn updateFn p fuel
          ⟨updateFn^[j] f0, b, c, e, L⟩).losses =
        L ++ (List.range' j (execCountFrom (lossSeq lossFn updateFn f0) p fuel j)).map
          (lossSeq lossFn updateFn f0) ∧
      (runEpochs lossFn updateFn p fuel
          ⟨updateFn^[j] f0, b, c, e, L⟩).best =
        pmin (lossSeq lossFn updateFn f0)
          (j + execCountFrom (lossSeq lossFn updateFn f0) p fuel j) ∧
      (runEpochs lossFn updateFn p fuel
          ⟨updateFn^[j] f0, b, c, e, L⟩).factors =
        updateFn^[j + execCountFrom (lossSeq lossFn updateFn f0) p fuel j] f0 ∧
      execCountFrom (lossSeq lossFn updateFn f0) p fuel j ≤ fuel ∧
      (0 < fuel → 0 < execCountFrom (lossSeq lossFn updateFn f0) p fuel j) := by
  intro fuel
  induction fuel with
  | zero =>
    intro j e L b c hb hc
    subst hb
    subst hc
    refine ⟨by simp [runEpochs, execCountFrom], ?_, ?_, ?_, ?_, ?_⟩
    · simp [runEpochs, execCountFrom]
    · simp [runEpochs, execCountFrom]
    · simp [runEpochs, execCountFrom]
    · simp [execCountFrom]
    · simp
  | succ fuel ih =>
    intro j e L b c hb hc
    subst hb
    subst hc
    have hls : lossFn (updateFn^[j] f0) = lossSeq lossFn updateFn f0 j := rfl
    by_cases himp : ((lossSeq lossFn updateFn f0 j : ℚ) : WithTop ℚ) <
        pmin (lossSeq lossFn updateFn f0) j
    · have himp' : improves (lossSeq lossFn updateFn f0) j :=
        (improves_iff_lt_pmin _ j).mpr himp
      have hca : counterAfter (lossSeq lossFn updateFn f0) j = 0 :=
        counterAfter_of_improves _ _ himp'
      have hm : execCountFrom (lossSeq lossFn updateFn f0) p (fuel + 1) j =
          1 + execCountFrom (lossSeq lossFn updateFn f0) p fuel (j + 1) := by
        rw [execCountFrom, if_neg (by omega)]
      have hrun : runEpochs lossFn updateFn p (fuel + 1)
          ⟨updateFn^[j] f0, pmin (lossSeq lossFn updateFn f0) j,
            cBefore (lossSeq lossFn updateFn f0) j, e, L⟩ =
          runEpochs lossFn updateFn p fuel
            ⟨updateFn^[j + 1] f0,
              ((lossSeq lossFn updateFn f0 j : ℚ) : WithTop ℚ), 0, e + 1,
              L ++ [lossSeq lossFn updateFn f0 j]⟩ := by
        rw [runEpochs]
        simp only [hls]
        rw [if_pos himp, ← Function.iterate_succ_apply' updateFn j f0]
      obtain ⟨ih1, ih2, ih3, ih4, ih5, ih6⟩ :=
        ih (j + 1) (e + 1) (L ++ [lossSeq lossFn updateFn f0 j])
          ((lossSeq lossFn updateFn f0 j : ℚ) : WithTop ℚ) 0
          (pmin_succ_of_improves _ _ himp').symm
          (by rw [cBefore, hca])
      rw [hrun, hm]
      refine ⟨by rw [ih1]; omega, ?_, ?_, ?_, by omega, fun _ => by omega⟩
      · rw [ih2]
        have hr : List.range' j (1 + execCountFrom (lossSeq lossFn updateFn f0) p fuel (j + 1)) =
            j :: List.range' (j + 1) (execCountFrom (lossSeq lossFn updateFn f0) p fuel (j + 1)) := by
          rw [Nat.add_comm 1, List.range'_succ]
        rw [hr, List.map_cons]
        exact (List.append_cons _ _ _).symm
      · rw [ih3]
        congr 1
        omega
      · rw [ih4]
        congr 1
        omega
    · have himp' : ¬ improves (lossSeq lossFn updateFn f0) j := by
        intro hi
        exact himp ((improves_iff_lt_pmin _ j).mp hi)
      have hca : counterAfter (lossSeq lossFn updateFn f0) j =
          cBefore (lossSeq lossFn updateFn f0) j + 1 :=
        counterAfter_of_not_improves _ _ himp'
      by_cases hbreak : p ≤ cBefore (lossSeq lossFn updateFn f0) j + 1
      · have hm : execCountFrom (lossSeq lossFn updateFn f0) p (fuel + 1) j = 1 := by
          rw [execCountFrom, if_pos (by omega)]
        have hrun : runEpochs lossFn updateFn p (fuel + 1)
            ⟨updateFn^[j] f0, pmin (lossSeq lossFn updateFn f0) j,
              cBefore (lossSeq lossFn updateFn f0) j, e, L⟩ =
            ⟨updateFn (updateFn^[j] f0), pmin (lossSeq lossFn updateFn f0) j,
              cBefore (lossSeq lossFn updateFn f0) j + 1, e + 1,
              L ++ [lossSeq lossFn updateFn f0 j]⟩ := by
          rw [runEpochs]
          simp only [hls]
          rw [if_neg himp, if_pos hbreak]
        rw [hrun, hm]
        refine ⟨rfl, ?_, ?_, ?_, by omega, fun _ => by omega⟩
        · rw [List.range'_one]
          rfl
        · exact (pmin_succ_of_not_improves _ _ himp').symm
        · rw [← Function.iterate_succ_apply' updateFn j f0]
      · have hm : execCountFrom (lossSeq lossFn updateFn f0) p (fuel + 1) j =
            1 + execCountFrom (lossSeq lossFn updateFn f0) p fuel (j + 1) := by
          rw [execCountFrom, if_neg (by omega)]
        have hrun : runEpochs lossFn updateFn p (fuel + 1)
            ⟨updateFn^[j] f0, pmin (lossSeq lossFn updateFn f0) j,
              cBefore (lossSeq lossFn updateFn f0) j, e, L⟩ =
            runEpochs lossFn updateFn p fuel
              ⟨updateFn^[j + 1] f0, pmin (lossSeq lossFn updateFn f0) j,
                cBefore (lossSeq lossFn updateFn f0) j + 1, e + 1,
                L ++ [lossSeq lossFn updateFn f0 j]⟩ := by
          rw [runEpochs]
          simp only [hls]
          rw [if_neg himp, if_neg hbreak, ← Function.iterate_succ_apply' updateFn j f0]
        obtain ⟨ih1, ih2, ih3, ih4, ih5, ih6⟩ :=
          ih (j + 1) (e + 1) (L ++ [lossSeq lossFn updateFn f0 j])
            (pmin (lossSeq lossFn updateFn f0) j)
            (cBefore (lossSeq lossFn updateFn f0) j + 1)
            (pmin_succ_of_not_improves _ _ himp').symm
            (by rw [cBefore, hca])
        rw [hrun, hm]
        refine ⟨by rw [ih1]; omega, ?_, ?_, ?_, by omega, fun _ => by omega⟩
        · rw [ih2]
          have hr : List.range' j (1 + execCountFrom (lossSeq lossFn updateFn f0) p fuel (j + 1)) =
              j :: List.range' (j + 1) (execCountFrom (lossSeq lossFn updateFn f0) p fuel (j + 1)) := by
            rw [Nat.add_comm 1, List.range'_succ]
          rw [hr, List.map_cons]
          exact (List.append_cons _ _ _).symm
        · rw [ih3]
          congr 1
          omega
        · rw [ih4]
          congr 1
          omega

theorem execCountFrom_lt_iff (ls : ℕ → ℚ) (p : ℕ) :
    ∀ (fuel j : ℕ),
      (execCountFrom ls p fuel j < fuel ↔
        ∃ e, j ≤ e ∧ e + 1 < j + fuel ∧ p ≤ counterAfter ls e) := by
  intro fuel
  induction fuel with
  | zero =>
    intro j
    constructor
    · intro h
      rw [execCountFrom] at h
      omega
    · rintro ⟨e, he1, he2, _⟩
      omega
  | succ fuel ih =>
    intro j
    by_cases hj : p ≤ counterAfter ls j
    · rw [execCountFrom, if_pos hj]
      constructor
      · intro h
        exact ⟨j, le_refl j, by omega, hj⟩
      · rintro ⟨e, he1, he2, _⟩
        omega
    · rw [execCountFrom, if_neg hj]
      constructor
      · intro h
        obtain ⟨e, he1, he2, he3⟩ := (ih (j + 1)).mp (by omega)
        exact ⟨e, by omega, by omega, he3⟩
      · rintro ⟨e, he1, he2, he3⟩
        have hne : j ≠ e := by
          rintro rfl
          exact hj he3
        have := (ih (j + 1)).mpr ⟨e, by omega, by omega, he3⟩
        omega

theorem pmin_le (ls : ℕ → ℚ) :
    ∀ (j i : ℕ), i < j → pmin ls j ≤ ((ls i : ℚ) : WithTop ℚ) := by
  intro j
  induction j with
  | zero => intro i hi; omega
  | succ j ih =>
    intro i hi
    rw [pmin]
    rcases Nat.lt_succ_iff_lt_or_eq.mp hi with h | rfl
    · exact le_trans (min_le_left _ _) (ih i h)
    · exact min_le_right _ _

theorem pmin_mem (ls : ℕ → ℚ) :
    ∀ j, 0 < j → ∃ i, i < j ∧ pmin ls j = ((ls i : ℚ) : WithTop ℚ) := by
  intro j
  induction j with
  | zero => intro h; omega
  | succ j ih =>
    intro _
    rcases Nat.eq_zero_or_pos j with rfl | hj
    · refine ⟨0, by omega, ?_⟩
      rw [pmin, pmin]
      exact min_eq_right le_top
    · obtain ⟨i, hi, hpi⟩ := ih hj
      rw [pmin]
      rcases le_total (pmin ls j) ((ls j : ℚ) : WithTop ℚ) with h | h
      · exact ⟨i, by omega, by rw [min_eq_left h, hpi]⟩
      · exact ⟨j, by omega, min_eq_right h⟩

/-- Claim C4: both trainer variants track the lowest loss seen so far
(`best` after the run equals the running minimum of the executed epochs'
losses); an epoch whose loss is strictly below that best — equivalently an
epoch improving on every earlier loss — resets the patience counter to
zero; the counter equals the length of the current non-improving streak;
and training executes fewer epochs than its budget (50 quick / 25 full)
exactly when the counter reaches the patience (5 quick / 3 full) at some
epoch before the last budgeted one. -/
theorem c4_early_stopping {α : Type} (lossFn : α → ℚ) (updateFn : α → α)
    (init : α) :
    (trainLoopQuick lossFn updateFn init).epochsDone ≤ 50 ∧
    ((trainLoopQuick lossFn updateFn init).epochsDone < 50 ↔
      ∃ e, e + 1 < 50 ∧
        5 ≤ counterAfter (lossSeq lossFn updateFn init) e) ∧
    (trainLoopQuick lossFn updateFn init).best =
      pmin (lossSeq lossFn updateFn init)
        (trainLoopQuick lossFn updateFn init).epochsDone ∧
    (trainLoopFull lossFn updateFn init).epochsDone ≤ 25 ∧
    ((trainLoopFull lossFn updateFn init).epochsDone < 25 ↔
      ∃ e, e + 1 < 25 ∧
        3 ≤ counterAfter (lossSeq lossFn updateFn init) e) ∧
    (trainLoopFull lossFn updateFn init).best =
      pmin (lossSeq lossFn updateFn init)
        (trainLoopFull lossFn updateFn init).epochsDone ∧
    (∀ e, improves (lossSeq lossFn updateFn init) e ↔
      ((lossSeq lossFn updateFn init e : ℚ) : WithTop ℚ) <
        pmin (lossSeq lossFn updateFn init) e) ∧
    (∀ e, improves (lossSeq lossFn updateFn init) e →
      counterAfter (lossSeq lossFn updateFn init) e = 0) ∧
    (∀ e c, c ≤ counterAfter (lossSeq lossFn updateFn init) e ↔
      ∀ t < c, ¬ improves (lossSeq lossFn updateFn init) (e - t)) := by
  have hq := runEpochs_master lossFn updateFn 5 (by omega) init 50 0 0 []
    ⊤ 0 rfl rfl
  have hf := runEpochs_master lossFn updateFn 3 (by omega) init 25 0 0 []
    ⊤ 0 rfl rfl
  rw [Function.iterate_zero_apply] at hq hf
  obtain ⟨hq1, _, hq3, _, hq5, _⟩ := hq
  obtain ⟨hf1, _, hf3, _, hf5, _⟩ := hf
  have hqD : (trainLoopQuick lossFn updateFn init).epochsDone =
      execCountFrom (lossSeq lossFn updateFn init) 5 50 0 := by
    rw [trainLoopQuick, hq1]
    omega
  have hfD : (trainLoopFull lossFn updateFn init).epochsDone =
      execCountFrom (lossSeq lossFn updateFn init) 3 25 0 := by
    rw [trainLoopFull, hf1]
    omega
  refine ⟨?_, ?_, ?_, ?_, ?_, ?_, ?_, ?_, ?_⟩
  · rw [hqD]; exact hq5
  · rw [hqD, execCountFrom_lt_iff]
    constructor
    · rintro ⟨e, _, he2, he3⟩
      exact ⟨e, by omega, he3⟩
    · rintro ⟨e, he1, he2⟩
      exact ⟨e, by omega, by omega, he2⟩
  · rw [hqD]
    unfold trainLoopQuick
    rw [hq3]
    congr 1
    omega
  · rw [hfD]; exact hf5
  · rw [hfD, execCountFrom_lt_iff]
    constructor
    · rintro ⟨e, _, he2, he3⟩
      exact ⟨e, by omega, he3⟩
    · rintro ⟨e, he1, he2⟩
      exact ⟨e, by omega, by omega, he2⟩
  · rw [hfD]
    unfold trainLoopFull
    rw [hf3]
    congr 1
    omega
  · exact fun e => improves_iff_lt_pmin _ e
  · exact fun e => counterAfter_of_improves _ e
  · exact fun e c => counterAfter_streak _ e c

/-- Shape predicate: `A` is an `r x c` matrix. -/
def isShape (A : List (List ℚ)) (r c : ℕ) : Prop :=
  A.length = r ∧ ∀ row ∈ A, row.length = c

theorem iterate_preserves_shape (updateFn : CFFactors → CFFactors)
    (u kf it : ℕ)
    (hstep : ∀ st : CFFactors, isShape st.1 u kf → isShape st.2 kf it →
      isShape (updateFn st).1 u kf ∧ isShape (updateFn st).2 kf it)
    (init : CFFactors) (h1 : isShape init.1 u kf) (h2 : isShape init.2 kf it) :
    ∀ n, isShape (updateFn^[n] init).1 u kf ∧
      isShape (updateFn^[n] init).2 kf it := by
  intro n
  induction n with
  | zero => simpa using ⟨h1, h2⟩
  | succ n ihn =>
    rw [Function.iterate_succ_apply']
    exact hstep _ ihn.1 ihn.2

/-- Claim C7: when the (abstracted) optimizer step preserves the factor
shapes, the quick trainer returns user factors of shape `(users, k)` and
post factors of shape `(k, posts)`, at least one epoch runs, one loss
value is recorded per executed epoch, and `final_loss` is the least loss
value observed over all executed epochs (it is attained by one of them and
bounds all of them) — not the loss of the last epoch. -/
theorem c7_trainer_output (lossFn : CFFactors → ℚ)
    (updateFn : CFFactors → CFFactors) (init : CFFactors) (u kf it : ℕ)
    (hU : isShape init.1 u kf) (hI : isShape init.2 kf it)
    (hstep : ∀ st : CFFactors, isShape st.1 u kf → isShape st.2 kf it →
      isShape (updateFn st).1 u kf ∧ isShape (updateFn st).2 kf it) :
    isShape (train_collaborative_filtering lossFn updateFn init).user_factors
      u kf ∧
    isShape (train_collaborative_filtering lossFn updateFn init).post_factors
      kf it ∧
    0 < (trainLoopQuick lossFn updateFn init).epochsDone ∧
    (trainLoopQuick lossFn updateFn init).losses.length =
      (trainLoopQuick lossFn updateFn init).epochsDone ∧
    (∃ l, l ∈ (trainLoopQuick lossFn updateFn init).losses ∧
      (train_collaborative_filtering lossFn updateFn init).final_loss =
        ((l : ℚ) : WithTop ℚ)) ∧
    (∀ l ∈ (trainLoopQuick lossFn updateFn init).losses,
      (train_collaborative_filtering lossFn updateFn init).final_loss ≤
        ((l : ℚ) : WithTop ℚ)) := by
  obtain ⟨hq1, hq2, hq3, hq4, hq5, hq6⟩ :=
    runEpochs_master lossFn updateFn 5 (by omega) init 50 0 0 [] ⊤ 0 rfl rfl
  rw [Function.iterate_zero_apply] at hq1 hq2 hq3 hq4
  have hm : 0 < execCountFrom (lossSeq lossFn updateFn init) 5 50 0 :=
    hq6 (by omega)
  have hfin : (train_collaborative_filtering lossFn updateFn init).final_loss =
      (trainLoopQuick lossFn updateFn init).best := rfl
  have hbest : (trainLoopQuick lossFn updateFn init).best =
      pmin (lossSeq lossFn updateFn init)
        (execCountFrom (lossSeq lossFn updateFn init) 5 50 0) := by
    unfold trainLoopQuick
    rw [hq3]
    congr 1
    omega
  have hloss : (trainLoopQuick lossFn updateFn init).losses =
      (List.range' 0 (execCountFrom (lossSeq lossFn updateFn init) 5 50 0)).map
        (lossSeq lossFn updateFn init) := by
    unfold trainLoopQuick
    rw [hq2]
    rfl
  have hed : (trainLoopQuick lossFn updateFn init).epochsDone =
      execCountFrom (lossSeq lossFn updateFn init) 5 50 0 := by
    unfold trainLoopQuick
    rw [hq1]
    omega
  have hfac : (trainLoopQuick lossFn updateFn init).factors =
      updateFn^[0 + execCountFrom (lossSeq lossFn updateFn init) 5 50 0] init := by
    unfold trainLoopQuick
    rw [hq4]
  have hsh := iterate_preserves_shape updateFn u kf it hstep init hU hI
    (0 + execCountFrom (lossSeq lossFn updateFn init) 5 50 0)
  refine ⟨?_, ?_, ?_, ?_, ?_, ?_⟩
  · have : (train_collaborative_filtering lossFn updateFn init).user_factors =
        (trainLoopQuick lossFn updateFn init).factors.1 := rfl
    rw [this, hfac]
    exact hsh.1
  · have : (train_collaborative_filtering lossFn updateFn init).post_factors =
        (trainLoopQuick lossFn updateFn init).factors.2 := rfl
    rw [this, hfac]
    exact hsh.2
  · rw [hed]
    exact hm
  · rw [hloss, hed, List.length_map, List.length_range']
  · obtain ⟨i, hi, hpi⟩ := pmin_mem (lossSeq lossFn updateFn init) _ hm
    refine ⟨lossSeq lossFn updateFn init i, ?_, ?_⟩
    · rw [hloss]
      exact List.mem_map_of_mem _ (List.mem_range'_1.mpr (by omega))
    · rw [hfin, hbest, hpi]
  · intro l hl
    rw [hloss] at hl
    obtain ⟨i, hi, rfl⟩ := List.mem_map.mp hl
    have hi' := List.mem_range'_1.mp hi
    rw [hfin, hbest]
    exact pmin_le _ _ i (by omega)

/-- Witness for `c7_trainer_output`: identity optimizer step and constant
loss `3` on `1 x 1` factor matrices. -/
theorem c7_trainer_output_witness :
    isShape (train_collaborative_filtering (fun x => 3) id
      (([[0]], [[0]]) : CFFactors)).user_factors 1 1 ∧
    isShape (train_collaborative_filtering (fun x => 3) id
      (([[0]], [[0]]) : CFFactors)).post_factors 1 1 ∧
    0 < (trainLoopQuick (fun x => 3) id
      (([[0]], [[0]]) : CFFactors)).epochsDone ∧
    (trainLoopQuick (fun x => 3) id
      (([[0]], [[0]]) : CFFactors)).losses.length =
      (trainLoopQuick (fun x => 3) id
        (([[0]], [[0]]) : CFFactors)).epochsDone ∧
    (∃ l, l ∈ (trainLoopQuick (fun x => 3) id
        (([[0]], [[0]]) : CFFactors)).losses ∧
      (train_collaborative_filtering (fun x => 3) id
        (([[0]], [[0]]) : CFFactors)).final_loss = ((l : ℚ) : WithTop ℚ)) ∧
    (∀ l ∈ (trainLoopQuick (fun x => 3) id
        (([[0]], [[0]]) : CFFactors)).losses,
      (train_collaborative_filtering (fun x => 3) id
        (([[0]], [[0]]) : CFFactors)).final_loss ≤ ((l : ℚ) : WithTop ℚ)) :=
  c7_trainer_output (fun x => 3) id (([[0]], [[0]]) : CFFactors) 1 1 1
    (by
      refine ⟨rfl, ?_⟩
      intro row hrow
      have hr : row = [0] := by simpa using hrow
      subst hr
      rfl)
    (by
      refine ⟨rfl, ?_⟩
      intro row hrow
      have hr : row = [0] := by simpa using hrow
      subst hr
      rfl)
    (fun st h1 h2 => ⟨h1, h2⟩)

/-! ## C10: `evaluate_business_recommendations` mutates its similarity
matrix (lines 724-811)

Both metric loops take the row view `sim_scores = similarity_matrix[i, :]`
and write `sim_scores[i] = -np.inf` through it, so the write lands in the
caller's array. The embedding passes the matrix state explicitly: the
evaluator returns the metrics together with the final matrix state, and
the claim becomes a statement about that final state. Entries are
`WithBot ℚ`, with `⊥` playing `-np.inf`. -/

/-- Write `M[i][j] = v` (a no-op out of range, like numpy would raise). -/
def setCellB (M : List (List (WithBot ℚ))) (i j : ℕ) (v : WithBot ℚ) :
    List (List (WithBot ℚ)) :=
  M.set i ((M.getD i []).set j v)

/-- One iteration of the precision/recall loop (lines 755-774): mutate the
diagonal entry, rank, compare against the same-category ground truth;
businesses with no same-category peer are skipped after the write. -/
def bizStep1 (k : ℕ) (cats : List ℕ)
    (st : List ℚ × List ℚ × List (List (WithBot ℚ))) (i : ℕ) :
    List ℚ × List ℚ × List (List (WithBot ℚ)) :=
  if ((List.range cats.length).filter
      (fun j => decide (j ≠ i ∧ cats.getD j 0 = cats.getD i 0))).length = 0 then
    (st.1, st.2.1, setCellB st.2.2 i i ⊥)
  else
    (st.1 ++ [if 0 < ((argsortDesc ((setCellB st.2.2 i i ⊥).getD i [])).take k).length then
        ((((argsortDesc ((setCellB st.2.2 i i ⊥).getD i [])).take k).filter
          (fun j => decide (j ∈ (List.range cats.length).filter
            (fun j => decide (j ≠ i ∧ cats.getD j 0 = cats.getD i 0))))).length : ℚ) /
          ((min k ((argsortDesc ((setCellB st.2.2 i i ⊥).getD i [])).take k).length : ℕ) : ℚ)
      else 0],
     st.2.1 ++ [if 0 < ((List.range cats.length).filter
        (fun j => decide (j ≠ i ∧ cats.getD j 0 = cats.getD i 0))).length then
        ((((argsortDesc ((setCellB st.2.2 i i ⊥).getD i [])).take k).filter
          (fun j => decide (j ∈ (List.range cats.length).filter
            (fun j => decide (j ≠ i ∧ cats.getD j 0 = cats.getD i 0))))).length : ℚ) /
          (((List.range cats.length).filter
            (fun j => decide (j ≠ i ∧ cats.getD j 0 = cats.getD i 0))).length : ℚ)
      else 0],
     setCellB st.2.2 i i ⊥)

/-- One iteration of the category-coverage loop (lines 786-790): the same
diagonal write, then the recommended categories are accumulated. -/
def bizStep2 (k : ℕ) (cats : List ℕ)
    (st : List ℕ × List (List (WithBot ℚ))) (i : ℕ) :
    List ℕ × List (List (WithBot ℚ)) :=
  ((st.1 ++ ((argsortDesc ((setCellB st.2 i i ⊥).getD i [])).take k).map
      (fun j => cats.getD j 0)).dedup,
   setCellB st.2 i i ⊥)

/-- `evaluate_business_recommendations`: returns the metric tuple
`(precision, recall, f1, category_coverage)` together with the final state
of the caller's similarity matrix. -/
def evaluate_business_recommendations (k : ℕ) (cats : List ℕ)
    (sim : List (List (WithBot ℚ))) :
    (ℚ × ℚ × ℚ × ℚ) × List (List (WithBot ℚ)) :=
  ((avgOrZero ((List.range cats.length).foldl (bizStep1 k cats) ([], [], sim)).1,
    avgOrZero ((List.range cats.length).foldl (bizStep1 k cats) ([], [], sim)).2.1,
    f1Of (avgOrZero ((List.range cats.length).foldl (bizStep1 k cats) ([], [], sim)).1)
      (avgOrZero ((List.range cats.length).foldl (bizStep1 k cats) ([], [], sim)).2.1),
    if cats.dedup.length = 0 then 0
    else ((((List.range cats.length).foldl (bizStep2 k cats)
        ([], ((List.range cats.length).foldl (bizStep1 k cats) ([], [], sim)).2.2)).1).length : ℚ) /
      (cats.dedup.length : ℚ)),
   ((List.range cats.length).foldl (bizStep2 k cats)
      ([], ((List.range cats.length).foldl (bizStep1 k cats) ([], [], sim)).2.2)).2)

theorem bizStep1_sim (k : ℕ) (cats : List ℕ)
    (st : List ℚ × List ℚ × List (List (WithBot ℚ))) (i : ℕ) :
    (bizStep1 k cats st i).2.2 = setCellB st.2.2 i i ⊥ := by
  unfold bizStep1
  split <;> rfl

theorem bizStep2_sim (k : ℕ) (cats : List ℕ)
    (st : List ℕ × List (List (WithBot ℚ))) (i : ℕ) :
    (bizStep2 k cats st i).2 = setCellB st.2 i i ⊥ := rfl

theorem foldl_bizStep1_sim (k : ℕ) (cats : List ℕ) :
    ∀ (I : List ℕ) (st : List ℚ × List ℚ × List (List (WithBot ℚ))),
      ((I.foldl (bizStep1 k cats) st).2.2) =
        I.foldl (fun s a => setCellB s a a ⊥) st.2.2 := by
  intro I
  induction I with
  | nil => intro st; rfl
  | cons a I ih =>
    intro st
    rw [List.foldl_cons, List.foldl_cons, ih, bizStep1_sim]

theorem foldl_bizStep2_sim (k : ℕ) (cats : List ℕ) :
    ∀ (I : List ℕ) (st : List ℕ × List (List (WithBot ℚ))),
      ((I.foldl (bizStep2 k cats) st).2) =
        I.foldl (fun s a => setCellB s a a ⊥) st.2 := by
  intro I
  induction I with
  | nil => intro st; rfl
  | cons a I ih =>
    intro st
    rw [List.foldl_cons, List.foldl_cons, ih, bizStep2_sim]

theorem setCellB_rect (S : List (List (WithBot ℚ))) (n a : ℕ) (ha : a < n)
    (hS : S.length = n) (hrows : ∀ row ∈ S, row.length = n) :
    (setCellB S a a ⊥).length = n ∧
      ∀ row ∈ setCellB S a a ⊥, row.length = n := by
  unfold setCellB
  refine ⟨by rw [List.length_set]; exact hS, ?_⟩
  intro row hrow
  rcases List.mem_or_eq_of_mem_set hrow with h | rfl
  · exact hrows _ h
  · rw [List.length_set]
    rw [List.getD_eq_getElem _ _ (by omega : a < S.length)]
    exact hrows _ (List.getElem_mem _)

theorem cell_setCellB (S : List (List (WithBot ℚ))) (n : ℕ) (a i j : ℕ)
    (ha : a < n) (hi : i < n) (hj : j < n)
    (hS : S.length = n) (hrows : ∀ row ∈ S, row.length = n) :
    ((setCellB S a a ⊥).getD i []).getD j ⊥ =
      if i = a ∧ j = a then ⊥ else (S.getD i []).getD j ⊥ := by
  have hrl : (S.getD a []).length = n := by
    rw [List.getD_eq_getElem _ _ (by omega : a < S.length)]
    exact hrows _ (List.getElem_mem _)
  by_cases hia : i = a
  · subst hia
    have h1 : (setCellB S i i ⊥).getD i [] = (S.getD i []).set i ⊥ := by
      unfold setCellB
      rw [List.getD_eq_getElem?_getD,
        List.getElem?_set_self (by omega : i < S.length), Option.getD_some]
    rw [h1]
    by_cases hji : j = i
    · subst hji
      rw [if_pos ⟨rfl, rfl⟩]
      rw [List.getD_eq_getElem?_getD,
        List.getElem?_set_self (by omega : j < (S.getD j []).length),
        Option.getD_some]
    · rw [if_neg (by tauto)]
      rw [List.getD_eq_getElem?_getD, List.getElem?_set_ne (by omega),
        ← List.getD_eq_getElem?_getD]
  · have h1 : (setCellB S a a ⊥).getD i [] = S.getD i [] := by
      unfold setCellB
      rw [List.getD_eq_getElem?_getD, List.getElem?_set_ne (by omega),
        ← List.getD_eq_getElem?_getD]
    rw [h1, if_neg (by tauto)]

theorem fold_setDiag_cell (n : ℕ) :
    ∀ (I : List ℕ) (S : List (List (WithBot ℚ))),
      (∀ a ∈ I, a < n) → S.length = n → (∀ row ∈ S, row.length = n) →
      (∀ i j, i < n → j < n →
        ((I.foldl (fun s a => setCellB s a a ⊥) S).getD i []).getD j ⊥ =
          if i = j ∧ i ∈ I then ⊥ else (S.getD i []).getD j ⊥) ∧
      (I.foldl (fun s a => setCellB s a a ⊥) S).length = n ∧
      (∀ row ∈ I.foldl (fun s a => setCellB s a a ⊥) S, row.length = n) := by
  intro I
  induction I with
  | nil =>
    intro S _ hS hrows
    refine ⟨?_, hS, hrows⟩
    intro i j _ _
    simp
  | cons a I ih =>
    intro S hI hS hrows
    have ha : a < n := hI a (List.mem_cons_self a I)
    obtain ⟨hrect1, hrect2⟩ := setCellB_rect S n a ha hS hrows
    obtain ⟨ihc, ihl, ihr⟩ := ih (setCellB S a a ⊥)
      (fun x hx => hI x (List.mem_cons_of_mem a hx)) hrect1 hrect2
    refine ⟨?_, by rw [List.foldl_cons]; exact ihl,
      by rw [List.foldl_cons]; exact ihr⟩
    intro i j hi hj
    rw [List.foldl_cons, ihc i j hi hj,
      cell_setCellB S n a i j ha hi hj hS hrows]
    by_cases h1 : i = j
    · subst h1
      by_cases h2 : i ∈ I
      · simp [h2]
      · by_cases h3 : i = a
        · subst h3
          simp [h2]
        · simp [h2, h3]
    · have : ¬ (i = a ∧ j = a) := by
        rintro ⟨rfl, rfl⟩
        exact h1 rfl
      simp [h1, this]

/-- Claim C10: after a call to the business-recommendation evaluator,
every diagonal entry of the caller's (square) similarity matrix has been
overwritten with negative infinity — each loop iteration writes through a
row view of the input array — while every off-diagonal entry is unchanged.
The embedding passes the matrix state through the two loops explicitly;
the returned state is the caller's array after the call. -/
theorem c10_diagonal_mutation (k : ℕ) (cats : List ℕ)
    (sim : List (List (WithBot ℚ)))
    (hlen : sim.length = cats.length)
    (hrows : ∀ row ∈ sim, row.length = cats.length) :
    ∀ i j, i < cats.length → j < cats.length →
      (((evaluate_business_recommendations k cats sim).2).getD i []).getD j ⊥ =
        if i = j then ⊥ else (sim.getD i []).getD j ⊥ := by
  intro i j hi hj
  have hmem : ∀ a ∈ List.range cats.length, a < cats.length := by
    intro a ha
    exact List.mem_range.mp ha
  obtain ⟨h1c, h1l, h1r⟩ := fold_setDiag_cell cats.length
    (List.range cats.length) sim hmem hlen hrows
  have hsim1 : ((List.range cats.length).foldl (bizStep1 k cats)
      ([], [], sim)).2.2 =
      (List.range cats.length).foldl (fun s a => setCellB s a a ⊥) sim :=
    foldl_bizStep1_sim k cats (List.range cats.length) ([], [], sim)
  obtain ⟨h2c, _, _⟩ := fold_setDiag_cell cats.length
    (List.range cats.length)
    ((List.range cats.length).foldl (fun s a => setCellB s a a ⊥) sim)
    hmem h1l h1r
  have hres : (evaluate_business_recommendations k cats sim).2 =
      (List.range cats.length).foldl (fun s a => setCellB s a a ⊥)
        ((List.range cats.length).foldl (fun s a => setCellB s a a ⊥) sim) := by
    show ((List.range cats.length).foldl (bizStep2 k cats)
      ([], ((List.range cats.length).foldl (bizStep1 k cats) ([], [], sim)).2.2)).2 = _
    rw [foldl_bizStep2_sim]
    rw [show ((([] : List ℕ), ((List.range cats.length).foldl (bizStep1 k cats)
      ([], [], sim)).2.2)).2 = ((List.range cats.length).foldl (bizStep1 k cats)
      ([], [], sim)).2.2 from rfl]
    rw [hsim1]
  rw [hres, h2c i j hi hj, h1c i j hi hj]
  by_cases h1 : i = j
  · subst h1
    simp [List.mem_range.mpr hi]
  · simp [h1]

/-- Witness for `c10_diagonal_mutation` on a concrete `2 x 2` matrix. -/
theorem c10_diagonal_mutation_witness :
    ((((evaluate_business_recommendations 5 [7, 7]
        [[((1 : ℚ) : WithBot ℚ), ((2 : ℚ) : WithBot ℚ)],
         [((3 : ℚ) : WithBot ℚ), ((4 : ℚ) : WithBot ℚ)]]).2).getD 0 []).getD 0 ⊥ =
      if 0 = 0 then ⊥ else
        ((([[((1 : ℚ) : WithBot ℚ), ((2 : ℚ) : WithBot ℚ)],
          [((3 : ℚ) : WithBot ℚ), ((4 : ℚ) : WithBot ℚ)]] : List (List (WithBot ℚ))).getD 0 []).getD 0 ⊥)) ∧
    ((((evaluate_business_recommendations 5 [7, 7]
        [[((1 : ℚ) : WithBot ℚ), ((2 : ℚ) : WithBot ℚ)],
         [((3 : ℚ) : WithBot ℚ), ((4 : ℚ) : WithBot ℚ)]]).2).getD 0 []).getD 1 ⊥ =
      if 0 = 1 then ⊥ else
        ((([[((1 : ℚ) : WithBot ℚ), ((2 : ℚ) : WithBot ℚ)],
          [((3 : ℚ) : WithBot ℚ), ((4 : ℚ) : WithBot ℚ)]] : List (List (WithBot ℚ))).getD 0 []).getD 1 ⊥)) :=
  ⟨c10_diagonal_mutation 5 [7, 7]
      [[((1 : ℚ) : WithBot ℚ), ((2 : ℚ) : WithBot ℚ)],
       [((3 : ℚ) : WithBot ℚ), ((4 : ℚ) : WithBot ℚ)]]
      (by norm_num)
      (by
        intro row hrow
        rcases List.mem_cons.mp hrow with rfl | hrow2
        · rfl
        · rcases List.mem_cons.mp hrow2 with rfl | hrow3
          · rfl
          · cases hrow3)
      0 0 (by norm_num) (by norm_num),
   c10_diagonal_mutation 5 [7, 7]
      [[((1 : ℚ) : WithBot ℚ), ((2 : ℚ) : WithBot ℚ)],
       [((3 : ℚ) : WithBot ℚ), ((4 : ℚ) : WithBot ℚ)]]
      (by norm_num)
      (by
        intro row hrow
        rcases List.mem_cons.mp hrow with rfl | hrow2
        · rfl
        · rcases List.mem_cons.mp hrow2 with rfl | hrow3
          · rfl
          · cases hrow3)
      0 1 (by norm_num) (by norm_num)⟩
